import Mathlib

/-!
# Kustomization patchers of the templating controller

A shallow embedding of `pkg/operations/kustomize/api.go`: the four patchers
(`VariantFiller`, `NamePrefixer`, `NamespaceNamePrefixer`, `LabelPropagator`)
and the overlay generator (`PatchOverlayGenerator`).

Conventions of the embedding:

* a Go method that mutates `k *types.Kustomization` and returns an `error`
  becomes a function returning the error (`none` is `nil`) together with the
  configuration after the call;
* a Go `map[string]string` that is only indexed and assigned is a function
  `String → Option String`; a map that is ranged over is the list of its
  entries in the order the loop visits them;
* untyped JSON content (`map[string]interface{}`) is a tree of tagged values
  whose maps are association lists.
-/

namespace Kustomize

/-! ## Data model -/

/-- Errors that a call can return. The patchers never build one; the overlay
generator passes on what the field helpers and the marshaller return. -/
inductive Error where
  | accessorError (fields : List String)
  | setError (fields : List String)
  | marshalError (msg : String)
  deriving DecidableEq, Repr

/-- The type `resid.Gvk`: group, version and kind as declared in a reference. -/
structure Gvk where
  Group : String
  Version : String
  Kind : String
  deriving DecidableEq, Repr

/-- The type `schema.GroupVersionKind`. -/
structure GroupVersionKind where
  Group : String
  Version : String
  Kind : String
  deriving DecidableEq, Repr

/-- The type `types.Target`: the object a variable refers to. -/
structure Target where
  APIVersion : String
  Gvk : Gvk
  Name : String
  Namespace : String
  deriving DecidableEq, Repr

/-- The type `types.FieldSelector`. -/
structure FieldSelector where
  FieldPath : String
  deriving DecidableEq, Repr

/-- The type `types.Var`: a variable reference of the configuration. -/
structure Var where
  Name : String
  ObjRef : Target
  FieldRef : FieldSelector
  deriving DecidableEq, Repr

/-- A Go `map[string]string` used through indexing and assignment only. -/
abbrev StringMap := String → Option String

/-- The empty map `map[string]string{}`. -/
def StringMap.empty : StringMap := fun _ => none

/-- The assignment `m[key] = val`. -/
def StringMap.set (m : StringMap) (key val : String) : StringMap :=
  fun x => if x = key then some val else m x

/-- The fields of `types.Kustomization` that the package reads or writes.
`CommonLabels = none` is the nil map. -/
structure Kustomization where
  Vars : List Var
  NamePrefix : String
  CommonLabels : Option StringMap
  PatchesStrategicMerge : List String

/-- JSON values as held in unstructured content. -/
inductive Value where
  | null
  | bool (b : Bool)
  | int (n : Int)
  | float (bits : Nat)
  | str (s : String)
  | list (xs : List Value)
  | map (m : List (String × Value))

/-- A `map[string]interface{}`: the entries of the map, keys looked up from
the front. -/
abbrev Object := List (String × Value)

/-- Modelled from the spec: the interface `resource.ParentResource` is declared
in `pkg/resource`, which is not part of the sources. The record holds what the
getters used here return: `GetObjectKind().GroupVersionKind()`, `GetName()`,
`GetNamespace()`, `GetUID()`, `GetLabels()` (the entries in the order a `range`
visits them) and `UnstructuredContent()`. -/
structure ParentResource where
  GroupVersionKind : GroupVersionKind
  Name : String
  Namespace : String
  UID : String
  Labels : List (String × String)
  Content : Object

/-- What a `Patch` call leaves behind: the returned error and the configuration. -/
structure PatchResult where
  err : Option Error
  k : Kustomization

/-! ## VariantFiller -/

/-- The function `getSchemaGVK`. -/
def getSchemaGVK (gvk : Gvk) : GroupVersionKind :=
  { Group := gvk.Group, Version := gvk.Version, Kind := gvk.Kind }

/-- Splitting a list of characters at every occurrence of `sep`; the result
always has at least one piece. -/
def splitChars (sep : Char) : List Char → List (List Char)
  | [] => [[]]
  | c :: cs =>
    if c = sep then [] :: splitChars sep cs
    else
      match splitChars sep cs with
      | h :: t => (c :: h) :: t
      | [] => [[c]]

/-- The call `strings.Split(s, sep)` for a one-character separator. -/
def Split (s : String) (sep : Char) : List String :=
  (splitChars sep s.data).map String.mk

/-- The accessor `Target.GVK()` of the kustomize library: the declared
group/version/kind, with group and version taken from `APIVersion` when that
field is set. `VariantFiller.Patch` takes the accessor as an argument; this is
the instance used on concrete inputs. -/
def Target.GVK (t : Target) : Kustomize.Gvk :=
  if t.APIVersion = "" then t.Gvk
  else
    match Split t.APIVersion '/' with
    | [g, v] => { t.Gvk with Group := g, Version := v }
    | [v] => { t.Gvk with Version := v }
    | _ => t.Gvk

/-- The body of the loop of `VariantFiller.Patch` for one element: `varRef` is
the copy the `range` clause made of `k.Vars[i]`, `gvkOf` is `Target.GVK()`
evaluated on that copy, and the result is `k.Vars[i]` after the iteration. -/
def fillVar (gvkOf : Target → Gvk) (cr : ParentResource) (varRef : Var) : Var :=
  if cr.GroupVersionKind = getSchemaGVK (gvkOf varRef.ObjRef) then
    { varRef with ObjRef := { varRef.ObjRef with Name := cr.Name, Namespace := cr.Namespace } }
  else varRef

/-- The method `VariantFiller.Patch`. -/
def VariantFiller.Patch (gvkOf : Target → Gvk) (cr : ParentResource) (k : Kustomization) :
    PatchResult :=
  if k.Vars.length = 0 then
    { err := none, k := k }
  else
    { err := none, k := { k with Vars := k.Vars.map (fillVar gvkOf cr) } }

/-! ## NamePrefixer and NamespaceNamePrefixer -/

/-- The method `NamePrefixer.Patch`. -/
def NamePrefixer.Patch (cr : ParentResource) (k : Kustomization) : PatchResult :=
  { err := none, k := { k with NamePrefix := cr.Name ++ "-" } }

/-- The method `NamespaceNamePrefixer.Patch`. -/
def NamespaceNamePrefixer.Patch (cr : ParentResource) (k : Kustomization) : PatchResult :=
  { err := none, k := { k with NamePrefix := cr.Namespace ++ "-" ++ cr.Name ++ "-" } }

/-! ## LabelPropagator -/

/-- The loop `for key, val := range cr.GetLabels() { m[key] = val }`. -/
def copyLabels (m : StringMap) (labels : List (String × String)) : StringMap :=
  labels.foldl (fun acc kv => acc.set kv.1 kv.2) m

/-- The method `LabelPropagator.Patch`. -/
def LabelPropagator.Patch (cr : ParentResource) (k : Kustomization) : PatchResult :=
  let m0 : StringMap :=
    match k.CommonLabels with
    | none => StringMap.empty
    | some m => m
  let m1 : StringMap :=
    if cr.Namespace ≠ "" then m0.set (cr.GroupVersionKind.Group ++ "/namespace") cr.Name
    else m0
  let m2 : StringMap := m1.set (cr.GroupVersionKind.Group ++ "/name") cr.Name
  let m3 : StringMap := m2.set (cr.GroupVersionKind.Group ++ "/uid") cr.UID
  { err := none, k := { k with CommonLabels := some (copyLabels m3 cr.Labels) } }

/-- The entry of `k.CommonLabels` at `key`; a nil map has no entries. -/
def Kustomization.label (k : Kustomization) (key : String) : Option String :=
  match k.CommonLabels with
  | none => none
  | some m => m key

/-! ## Unstructured content -/

/-- The lookup `val, ok := m[key]`: `none` when the key is missing. -/
def mapGet : Object → String → Option Value
  | [], _ => none
  | (k, v) :: rest, key => if k = key then some v else mapGet rest key

/-- The assignment `m[key] = val`: an existing entry is replaced where it
stands, a new one is added at the end. -/
def mapSet : Object → String → Value → Object
  | [], key, val => [(key, val)]
  | (k, v) :: rest, key, val =>
    if k = key then (k, val) :: rest else (k, v) :: mapSet rest key val

/-- The statement `delete(m, key)`. -/
def mapDelete : Object → String → Object
  | [], _ => []
  | (k, v) :: rest, key => if k = key then rest else (k, v) :: mapDelete rest key

/-- The loop of `unstructured.NestedFieldNoCopy`: `val` is the value reached
so far, `i` the index of the next field of `all`, the list the fields still to
walk. A null value ends the walk with "not found", a missing key too; any other
value that is not a map is an error. -/
def nestedFieldLoop (all : List String) : Value → Nat → List String → Except Error (Option Value)
  | val, _, [] => .ok (some val)
  | val, i, field :: rest =>
    match val with
    | .null => .ok none
    | .map m =>
      match mapGet m field with
      | none => .ok none
      | some v => nestedFieldLoop all v (i + 1) rest
    | _ => .error (.accessorError (all.take (i + 1)))

/-- Modelled from the spec: `unstructured.NestedFieldCopy` belongs to
k8s.io/apimachinery, which is not part of the sources. It reads the value at a
path of map keys: `.ok (some v)` is `(v, true, nil)`, `.ok none` is
`(nil, false, nil)` (the path does not resolve to a value) and `.error e` is
`(nil, false, e)` (the path runs through a value that cannot be traversed).
The deep copy it returns is the value itself. -/
def NestedFieldCopy (obj : Object) (fields : List String) : Except Error (Option Value) :=
  nestedFieldLoop fields (.map obj) 0 fields

/-- The loop of `unstructured.SetNestedField`: `m` is the map reached so far.
Intermediate maps are created when missing; an intermediate value that exists
and is not a map is an error. The result is `m` after the write. The case of no
fields at all is not reached from `Generate` (the library would panic on it);
it is an error here. -/
def setNestedFieldLoop (all : List String) (value : Value) :
    Object → Nat → List String → Except Error Object
  | _, _, [] => .error (.setError [])
  | m, _, [last] => .ok (mapSet m last value)
  | m, i, field :: rest =>
    match mapGet m field with
    | some (.map valMap) =>
      match setNestedFieldLoop all value valMap (i + 1) rest with
      | .ok inner => .ok (mapSet m field (.map inner))
      | .error e => .error e
    | some _ => .error (.setError (all.take (i + 1)))
    | none =>
      match setNestedFieldLoop all value [] (i + 1) rest with
      | .ok inner => .ok (mapSet m field (.map inner))
      | .error e => .error e

/-- Modelled from the spec: `unstructured.SetNestedField` belongs to
k8s.io/apimachinery, which is not part of the sources. It writes `value` at a
path of map keys, creating intermediate containers as needed, and fails when
the path descends through an existing value that is not a map; on failure
the object is as before. The path is never empty here (`strings.Split`
returns at least one field). -/
def SetNestedField (obj : Object) (value : Value) (fields : List String) : Except Error Object :=
  setNestedFieldLoop fields value obj 0 fields

/-- Modelled from the spec: `unstructured.RemoveNestedField` of
k8s.io/apimachinery, used by the name and namespace setters for an empty
string: the entry at the path is deleted when the path exists. The setters
always pass two fields. -/
def RemoveNestedField : Object → List String → Object
  | m, [] => m
  | m, [last] => mapDelete m last
  | m, field :: rest =>
    match mapGet m field with
    | some (.map x) => mapSet m field (.map (RemoveNestedField x rest))
    | _ => m

/-- The type `unstructured.Unstructured`; the nil map of a fresh object is the
empty map (the first setter allocates it). -/
structure Unstructured where
  Object : Object

/-- The private setter `Unstructured.setNestedField`, which drops the error. -/
def Unstructured.setNestedField (u : Unstructured) (value : Value) (fields : List String) :
    Unstructured :=
  match SetNestedField u.Object value fields with
  | .ok m => { Object := m }
  | .error _ => u

/-- The setter `Unstructured.SetAPIVersion`. -/
def Unstructured.SetAPIVersion (u : Unstructured) (version : String) : Unstructured :=
  u.setNestedField (.str version) ["apiVersion"]

/-- The setter `Unstructured.SetKind`. -/
def Unstructured.SetKind (u : Unstructured) (kind : String) : Unstructured :=
  u.setNestedField (.str kind) ["kind"]

/-- The setter `Unstructured.SetName`. -/
def Unstructured.SetName (u : Unstructured) (name : String) : Unstructured :=
  if name.length = 0 then { Object := RemoveNestedField u.Object ["metadata", "name"] }
  else u.setNestedField (.str name) ["metadata", "name"]

/-- The setter `Unstructured.SetNamespace`. -/
def Unstructured.SetNamespace (u : Unstructured) (ns : String) : Unstructured :=
  if ns.length = 0 then { Object := RemoveNestedField u.Object ["metadata", "namespace"] }
  else u.setNestedField (.str ns) ["metadata", "namespace"]

/-! ## PatchOverlayGenerator -/

/-- Modelled from the spec: the type `v1alpha1.FieldBinding` is declared in
`api/v1alpha1`, which is not part of the sources: a pair of dotted field paths,
`From` in the parent and `To` in the overlay object. -/
structure FieldBinding where
  From : String
  To : String
  deriving DecidableEq, Repr

/-- Modelled from the spec: the type `v1alpha1.Overlay` is declared in
`api/v1alpha1`, which is not part of the sources: the apiVersion, kind, name
and namespace of the target object and the list of its bindings. -/
structure Overlay where
  APIVersion : String
  Kind : String
  Name : String
  Namespace : String
  Bindings : List FieldBinding
  deriving DecidableEq, Repr

/-- Modelled from the spec: the type `OverlayFile` is declared in another file
of the package, which is not part of the sources: a file name and its content
(the bytes of the text). -/
structure OverlayFile where
  Name : String
  Data : String
  deriving DecidableEq, Repr

/-- The type `PatchOverlayGenerator`. -/
structure PatchOverlayGenerator where
  Overlays : List Overlay
  deriving DecidableEq, Repr

/-- What a `Generate` call leaves behind: the returned files (`none` is the nil
slice), the returned error and the configuration. -/
structure GenerateResult where
  files : Option (List OverlayFile)
  err : Option Error
  k : Kustomization

/-- The first four statements of the overlay loop: a fresh object with the
apiVersion, kind, name and namespace of the overlay. -/
def newOverlayObject (overlay : Overlay) : Unstructured :=
  ((((Unstructured.mk []).SetAPIVersion overlay.APIVersion).SetKind overlay.Kind).SetName
    overlay.Name).SetNamespace overlay.Namespace

/-- The loop over `overlay.Bindings`: `obj` is `obj.Object` before the
remaining bindings; an error is the one `Generate` returns at once. -/
def applyBindings (content : Object) : Object → List FieldBinding → Except Error Object
  | obj, [] => .ok obj
  | obj, binding :: rest =>
    match NestedFieldCopy content (Split binding.From '.') with
    | .error e => .error e
    | .ok none => applyBindings content obj rest
    | .ok (some val) =>
      match SetNestedField obj val (Split binding.To '.') with
      | .error e => .error e
      | .ok obj1 => applyBindings content obj1 rest

/-- The object that `Generate` hands to `yaml.Marshal` for one overlay, or
the error of the first binding that fails. -/
def overlayObject (cr : ParentResource) (overlay : Overlay) : Except Error Unstructured :=
  match applyBindings cr.Content (newOverlayObject overlay).Object overlay.Bindings with
  | .error e => .error e
  | .ok obj => .ok { Object := obj }

/-- The loop over `pog.Overlays`: `finalOverlayYAML` is the text so far and
`marshal` stands for `yaml.Marshal`. -/
def generateLoop (marshal : Unstructured → Except Error String) (cr : ParentResource) :
    String → List Overlay → Except Error String
  | finalOverlayYAML, [] => .ok finalOverlayYAML
  | finalOverlayYAML, overlay :: rest =>
    match overlayObject cr overlay with
    | .error e => .error e
    | .ok obj =>
      match marshal obj with
      | .error e => .error e
      | .ok overlayYAML =>
        generateLoop marshal cr (finalOverlayYAML ++ "---\n" ++ overlayYAML) rest

/-- The constant `fileName` of `Generate`. -/
def fileName : String := "overlaypatch.yaml"

/-- The method `PatchOverlayGenerator.Generate`, with `yaml.Marshal` as the
argument `marshal`. -/
def PatchOverlayGenerator.Generate (marshal : Unstructured → Except Error String)
    (pog : PatchOverlayGenerator) (cr : ParentResource) (k : Kustomization) : GenerateResult :=
  if pog.Overlays.length = 0 then
    { files := none, err := none, k := k }
  else
    match generateLoop marshal cr "" pog.Overlays with
    | .error e => { files := none, err := some e, k := k }
    | .ok finalOverlayYAML =>
      { files := some [{ Name := fileName, Data := finalOverlayYAML }],
        err := none,
        k := { k with PatchesStrategicMerge := k.PatchesStrategicMerge ++ [fileName] } }

/-! ## Concrete inputs -/

/-- A parent of kind `g/v1, Kind=Pack` named `nm` in namespace `ns`. -/
def exParent : ParentResource :=
  { GroupVersionKind := { Group := "g", Version := "v1", Kind := "Pack" },
    Name := "nm", Namespace := "ns", UID := "u",
    Labels := [("app", "web"), ("tier", "db")],
    Content := [("spec", .map [("a", .str "A"), ("b", .str "B")])] }

/-- The parent `exParent` with a label of its own under a derived key. -/
def exParentColliding : ParentResource :=
  { exParent with Labels := [("app", "web"), ("g/name", "mine")] }

/-- The parent `exParent` without labels of its own. -/
def exParentNoLabels : ParentResource := { exParent with Labels := [] }

/-- A cluster-scoped parent: the same kind and name, no namespace, no labels. -/
def exParentNoNamespace : ParentResource := { exParentNoLabels with Namespace := "" }

/-- A reference to the kind of `exParent`, declared through `apiVersion`. -/
def exVarSame : Var :=
  { Name := "PACK_NAME",
    ObjRef := { APIVersion := "g/v1", Gvk := { Group := "", Version := "", Kind := "Pack" },
                Name := "placeholder", Namespace := "" },
    FieldRef := { FieldPath := "metadata.name" } }

/-- A reference to another kind. -/
def exVarOther : Var :=
  { Name := "SVC_NAME",
    ObjRef := { APIVersion := "v1", Gvk := { Group := "", Version := "", Kind := "Service" },
                Name := "svc", Namespace := "default" },
    FieldRef := { FieldPath := "metadata.name" } }

/-- A configuration with two variable references and no labels map. -/
def exConfig : Kustomization :=
  { Vars := [exVarOther, exVarSame], NamePrefix := "old-", CommonLabels := none,
    PatchesStrategicMerge := ["base.yaml"] }

/-- A configuration whose labels map holds `val` under `g/namespace`. -/
def exConfigWith (val : String) : Kustomization :=
  { exConfig with CommonLabels := some (StringMap.empty.set "g/namespace" val) }

/-! ## Notions used by the claims on `Generate` -/

/-- The multi-document text of the spec: every document preceded by the
separator `---\n`, the first one too, in list order. -/
def multiDocument : List String → String
  | [] => ""
  | doc :: rest => "---\n" ++ doc ++ multiDocument rest

/-- The path does not exist in the map because one of its fields is a missing
key: the fields before it lead through maps, and the map reached does not have
it. -/
def missingKey : Object → List String → Bool
  | _, [] => false
  | m, field :: rest =>
    match mapGet m field with
    | none => true
    | some (.map inner) => missingKey inner rest
    | some _ => false

/-- The path descends through a value of the map that is not a map: one of
its fields other than the last is the key of such a value, the fields before
it lead through maps. -/
def descendsThroughNonMap : Object → List String → Bool
  | _, [] => false
  | _, [_] => false
  | m, field :: rest =>
    match mapGet m field with
    | some (.map inner) => descendsThroughNonMap inner rest
    | some _ => true
    | none => false

/-- A marshaller for the concrete inputs: the value of the `kind` field on a
line of its own. -/
def exMarshal (obj : Unstructured) : Except Error String :=
  match mapGet obj.Object "kind" with
  | some (.str kind) => .ok (kind ++ "\n")
  | _ => .error (.marshalError "no kind")

/-- An overlay with two bindings whose sources exist in `exParent`. -/
def exOverlayGood : Overlay :=
  { APIVersion := "v1", Kind := "ConfigMap", Name := "cm", Namespace := "default",
    Bindings := [{ From := "spec.a", To := "data.x" }, { From := "spec.b", To := "data.y" }] }

/-- An overlay with one binding whose source is not in `exParent`. -/
def exOverlayAbsent : Overlay :=
  { APIVersion := "v1", Kind := "Secret", Name := "s", Namespace := "default",
    Bindings := [{ From := "spec.missing", To := "data.x" }] }

/-- An overlay with one binding whose source is not in `exParent` and whose
target is the `kind` field. -/
def exOverlayAbsentToKind : Overlay :=
  { APIVersion := "v1", Kind := "Secret", Name := "s", Namespace := "default",
    Bindings := [{ From := "spec.missing", To := "kind" }] }

/-- An overlay whose second binding writes below the string at `kind`. -/
def exOverlayBelowKind : Overlay :=
  { APIVersion := "v1", Kind := "Deployment", Name := "d", Namespace := "default",
    Bindings := [{ From := "spec.a", To := "data.x" }, { From := "spec.b", To := "kind.x" },
                 { From := "spec.a", To := "data.z" }] }

/-- The first value on the path that is not a map although the path goes on
below it: the fields before it lead through maps. `none` when the path leads
through maps only, or leaves them at a missing key. -/
def blockingValue : Object → List String → Option Value
  | _, [] => none
  | m, field :: rest =>
    match mapGet m field with
    | none => none
    | some (.map inner) => blockingValue inner rest
    | some v => if rest.isEmpty then none else some v

/-- The parent `exParent` with a null at `spec.n` in its content. -/
def exParentNull : ParentResource :=
  { exParent with Content := [("spec", .map [("a", .str "A"), ("n", .null)])] }

/-- An overlay whose second binding reads below the string at `spec.a`. -/
def exOverlayBelowString : Overlay :=
  { APIVersion := "v1", Kind := "Deployment", Name := "d", Namespace := "default",
    Bindings := [{ From := "spec.a", To := "data.x" }, { From := "spec.a.b", To := "data.y" }] }

/-- An overlay whose binding reads below the null at `spec.n`. -/
def exOverlayBelowNull : Overlay :=
  { APIVersion := "v1", Kind := "Deployment", Name := "d", Namespace := "default",
    Bindings := [{ From := "spec.n.b", To := "data.y" }] }

/-- A marshaller that fails on every object. -/
def exMarshalFails (_ : Unstructured) : Except Error String :=
  .error (.marshalError "cannot marshal")

/-- The common labels that `LabelPropagator.Patch` sets before it copies the
labels of the parent: the prior entry of `k`, updated at the derived keys. -/
def derivedLabel (cr : ParentResource) (k : Kustomization) (key : String) : Option String :=
  if key = cr.GroupVersionKind.Group ++ "/uid" then some cr.UID
  else if key = cr.GroupVersionKind.Group ++ "/name" then some cr.Name
  else if key = cr.GroupVersionKind.Group ++ "/namespace" ∧ cr.Namespace ≠ "" then some cr.Name
  else k.label key

/-- An overlay whose second binding writes the parent of the target of the
first. -/
def exOverlayOverwrite : Overlay :=
  { APIVersion := "v1", Kind := "ConfigMap", Name := "cm", Namespace := "default",
    Bindings := [{ From := "spec.a", To := "data.x" }, { From := "spec.b", To := "data" }] }

/-- The path is one of the fields that the setters fill in the fresh object of
the overlay: `apiVersion`, `kind`, and below `metadata` the name and the
namespace that are not empty. -/
def overlaySetsField (overlay : Overlay) (fields : List String) : Prop :=
  fields = ["apiVersion"] ∨ fields = ["kind"] ∨
  (fields = ["metadata"] ∧ (overlay.Name ≠ "" ∨ overlay.Namespace ≠ "")) ∨
  (fields = ["metadata", "name"] ∧ overlay.Name ≠ "") ∨
  (fields = ["metadata", "namespace"] ∧ overlay.Namespace ≠ "")

/-! ## Lemmas on maps and labels -/

theorem append_left_ne (g a b : String) (h : a ≠ b) : g ++ a ≠ g ++ b := by
  intro hab
  apply h
  have hd : (g ++ a).data = (g ++ b).data := by rw [hab]
  simp only [String.data_append] at hd
  exact String.ext (List.append_cancel_left hd)

theorem name_ne_uid (g : String) : g ++ "/name" ≠ g ++ "/uid" :=
  append_left_ne g _ _ (by decide)

theorem name_ne_namespace (g : String) : g ++ "/name" ≠ g ++ "/namespace" :=
  append_left_ne g _ _ (by decide)

theorem uid_ne_namespace (g : String) : g ++ "/uid" ≠ g ++ "/namespace" :=
  append_left_ne g _ _ (by decide)

theorem set_same (m : StringMap) (key val : String) : m.set key val key = some val := by
  simp [StringMap.set]

theorem set_other (m : StringMap) (key val x : String) (h : x ≠ key) :
    m.set key val x = m x := by
  simp [StringMap.set, h]

theorem copyLabels_nil (m : StringMap) : copyLabels m [] = m := rfl

theorem copyLabels_cons (m : StringMap) (kv : String × String) (rest : List (String × String)) :
    copyLabels m (kv :: rest) = copyLabels (m.set kv.1 kv.2) rest := rfl

/-- A key that is not a label of the parent keeps its entry through the copy. -/
theorem copyLabels_other (labels : List (String × String)) (m : StringMap) (key : String)
    (h : ∀ kv ∈ labels, kv.1 ≠ key) : copyLabels m labels key = m key := by
  induction labels generalizing m with
  | nil => rfl
  | cons kv rest ih =>
    rw [copyLabels_cons, ih _ (fun x hx => h x (List.mem_cons_of_mem _ hx))]
    exact set_other m kv.1 kv.2 key (fun hk => h kv (List.mem_cons_self _ _) hk.symm)

/-- With pairwise distinct keys every label of the parent is in the map after
the copy. -/
theorem copyLabels_mem (labels : List (String × String)) (m : StringMap)
    (hnd : (labels.map Prod.fst).Nodup) (kv : String × String) (hkv : kv ∈ labels) :
    copyLabels m labels kv.1 = some kv.2 := by
  induction labels generalizing m with
  | nil => cases hkv
  | cons hd rest ih =>
    rw [List.map_cons, List.nodup_cons] at hnd
    rw [copyLabels_cons]
    rcases List.mem_cons.mp hkv with heq | hin
    · subst heq
      rw [copyLabels_other rest _ kv.1]
      · exact set_same m kv.1 kv.2
      · intro x hx hk
        exact hnd.1 (hk ▸ List.mem_map_of_mem Prod.fst hx)
    · exact ih _ hnd.2 hin

/-- The copy gives the same map on two maps that agree off the labels. -/
theorem copyLabels_congr (labels : List (String × String)) (m1 m2 : StringMap) (key : String)
    (h : m1 key = m2 key) : copyLabels m1 labels key = copyLabels m2 labels key := by
  induction labels generalizing m1 m2 with
  | nil => exact h
  | cons kv rest ih =>
    rw [copyLabels_cons, copyLabels_cons]
    apply ih
    by_cases hk : key = kv.1
    · simp [StringMap.set, hk]
    · simp [StringMap.set, hk, h]

/-! ## VariantFiller: the contract -/

/-- C1: after `VariantFiller.Patch` the error is nil, the list of variable
references has the length it had, the reference at every position whose
group/version/kind (as `Target.GVK()` reports it) equals the parent's is the
former one with the parent's name and namespace as target name and namespace,
the reference at every other position is the former one, and the name prefix,
the common labels and the patch list are the former ones. -/
theorem variantFiller_patch_contract (gvkOf : Target → Gvk) (cr : ParentResource)
    (k : Kustomization) :
    (VariantFiller.Patch gvkOf cr k).err = none ∧
    (VariantFiller.Patch gvkOf cr k).k.Vars.length = k.Vars.length ∧
    (∀ (i : Nat) (v : Var), k.Vars[i]? = some v →
      ∃ w : Var, (VariantFiller.Patch gvkOf cr k).k.Vars[i]? = some w ∧
        (cr.GroupVersionKind = getSchemaGVK (gvkOf v.ObjRef) →
          w.ObjRef.Name = cr.Name ∧ w.ObjRef.Namespace = cr.Namespace ∧
          w = { v with ObjRef := { v.ObjRef with Name := cr.Name, Namespace := cr.Namespace } }) ∧
        (cr.GroupVersionKind ≠ getSchemaGVK (gvkOf v.ObjRef) → w = v)) ∧
    (VariantFiller.Patch gvkOf cr k).k.NamePrefix = k.NamePrefix ∧
    (VariantFiller.Patch gvkOf cr k).k.CommonLabels = k.CommonLabels ∧
    (VariantFiller.Patch gvkOf cr k).k.PatchesStrategicMerge = k.PatchesStrategicMerge := by
  unfold VariantFiller.Patch
  by_cases hlen : k.Vars.length = 0
  · have hnil : k.Vars = [] := List.length_eq_zero.mp hlen
    rw [if_pos hlen]
    refine ⟨rfl, rfl, ?_, rfl, rfl, rfl⟩
    intro i v hv
    rw [hnil] at hv
    simp at hv
  · rw [if_neg hlen]
    refine ⟨rfl, by simp, ?_, rfl, rfl, rfl⟩
    intro i v hv
    refine ⟨fillVar gvkOf cr v, by simp [hv], ?_, ?_⟩
    · intro hm
      simp [fillVar, hm]
    · intro hm
      simp [fillVar, hm]

/-- The contract of C1 on a configuration with one reference to another kind
followed by one reference to the parent's kind. -/
theorem variantFiller_patch_contract_witness :
    (VariantFiller.Patch Target.GVK exParent exConfig).err = none ∧
    (VariantFiller.Patch Target.GVK exParent exConfig).k.Vars =
      [exVarOther,
       { exVarSame with ObjRef := { exVarSame.ObjRef with Name := "nm", Namespace := "ns" } }] := by
  have h := variantFiller_patch_contract Target.GVK exParent exConfig
  exact ⟨h.1, by decide⟩

/-! ## LabelPropagator: the contract -/

/-- C2: for a parent with a non-empty namespace whose own labels use none of
the keys `<group>/name`, `<group>/uid`, `<group>/namespace`, and any
configuration (its labels map may be nil), after `LabelPropagator.Patch` the
error is nil and the common labels map `<group>/name` to the parent's name,
`<group>/uid` to its UID and `<group>/namespace` to its name. -/
theorem labelPropagator_derived_labels (cr : ParentResource) (k : Kustomization)
    (hns : cr.Namespace ≠ "")
    (hfree : ∀ kv ∈ cr.Labels,
      kv.1 ≠ cr.GroupVersionKind.Group ++ "/name" ∧
      kv.1 ≠ cr.GroupVersionKind.Group ++ "/uid" ∧
      kv.1 ≠ cr.GroupVersionKind.Group ++ "/namespace") :
    (LabelPropagator.Patch cr k).err = none ∧
    (LabelPropagator.Patch cr k).k.label (cr.GroupVersionKind.Group ++ "/name") = some cr.Name ∧
    (LabelPropagator.Patch cr k).k.label (cr.GroupVersionKind.Group ++ "/uid") = some cr.UID ∧
    (LabelPropagator.Patch cr k).k.label (cr.GroupVersionKind.Group ++ "/namespace")
      = some cr.Name := by
  refine ⟨rfl, ?_, ?_, ?_⟩
  · simp only [LabelPropagator.Patch, Kustomization.label]
    rw [copyLabels_other _ _ _ (fun kv hkv => (hfree kv hkv).1)]
    rw [set_other _ _ _ _ (name_ne_uid _), set_same]
  · simp only [LabelPropagator.Patch, Kustomization.label]
    rw [copyLabels_other _ _ _ (fun kv hkv => (hfree kv hkv).2.1)]
    rw [set_same]
  · simp only [LabelPropagator.Patch, Kustomization.label]
    rw [copyLabels_other _ _ _ (fun kv hkv => (hfree kv hkv).2.2)]
    rw [set_other _ _ _ _ (uid_ne_namespace _).symm,
      set_other _ _ _ _ (name_ne_namespace _).symm, if_pos hns, set_same]

/-- The derived labels of C2 for the parent `nm` of group `g` in namespace `ns`
and a configuration without a labels map. -/
theorem labelPropagator_derived_labels_witness :
    (LabelPropagator.Patch exParent exConfig).err = none ∧
    (LabelPropagator.Patch exParent exConfig).k.label "g/name" = some "nm" ∧
    (LabelPropagator.Patch exParent exConfig).k.label "g/uid" = some "u" ∧
    (LabelPropagator.Patch exParent exConfig).k.label "g/namespace" = some "nm" :=
  labelPropagator_derived_labels exParent exConfig (by decide) (by decide)

/-- C3: the code at the parent `nm` of group `g` in namespace `ns` without
labels: the common label `g/namespace` is the parent's name `nm` and not its
namespace `ns`. -/
theorem labelPropagator_namespace_label_is_name :
    exParentNoLabels.Namespace = "ns" ∧
    (LabelPropagator.Patch exParentNoLabels exConfig).k.label "g/namespace" = some "nm" ∧
    (LabelPropagator.Patch exParentNoLabels exConfig).k.label "g/namespace"
      ≠ some exParentNoLabels.Namespace := by
  decide

/-- C4: for a parent whose labels have pairwise distinct keys (they come from
a map) and any configuration, after `LabelPropagator.Patch` every label of the
parent is in the common labels with the parent's value, whatever the key. -/
theorem labelPropagator_parent_labels_win (cr : ParentResource) (k : Kustomization)
    (hnd : (cr.Labels.map Prod.fst).Nodup) (key val : String) (hkv : (key, val) ∈ cr.Labels) :
    (LabelPropagator.Patch cr k).k.label key = some val := by
  simp only [LabelPropagator.Patch, Kustomization.label]
  exact copyLabels_mem cr.Labels _ hnd (key, val) hkv

/-- The label `g/name` of the parent `exParentColliding` wins over the derived
label of C4. -/
theorem labelPropagator_parent_labels_win_witness :
    (LabelPropagator.Patch exParentColliding (exConfigWith "old")).k.label "g/name" = some "mine" :=
  labelPropagator_parent_labels_win exParentColliding (exConfigWith "old") (by decide)
    "g/name" "mine" (by decide)

/-- C5 as stated fails for a parent without a namespace: two configurations
that differ only in the value under `g/namespace` keep that difference. -/
theorem labelPropagator_namespace_key_survives :
    exParentNoNamespace.Labels = [] ∧
    (∀ key : String, key ≠ "g/name" → key ≠ "g/uid" → key ≠ "g/namespace" →
      (exConfigWith "a").label key = (exConfigWith "b").label key) ∧
    (LabelPropagator.Patch exParentNoNamespace (exConfigWith "a")).k.label "g/namespace"
      = some "a" ∧
    (LabelPropagator.Patch exParentNoNamespace (exConfigWith "b")).k.label "g/namespace"
      = some "b" ∧
    (LabelPropagator.Patch exParentNoNamespace (exConfigWith "a")).k.CommonLabels
      ≠ (LabelPropagator.Patch exParentNoNamespace (exConfigWith "b")).k.CommonLabels := by
  refine ⟨rfl, ?_, by decide, by decide, ?_⟩
  · intro key _ _ h3
    simp [exConfigWith, Kustomization.label, StringMap.set, StringMap.empty, h3]
  · intro h
    have h2 : (LabelPropagator.Patch exParentNoNamespace (exConfigWith "a")).k.label "g/namespace"
        = (LabelPropagator.Patch exParentNoNamespace (exConfigWith "b")).k.label "g/namespace" := by
      unfold Kustomization.label
      rw [h]
    revert h2
    decide

/-- Two configurations whose common labels agree at every key that
`LabelPropagator.Patch` does not assign from the parent's identity get the
same common labels. -/
theorem commonLabels_of_agree (cr : ParentResource) (k1 k2 : Kustomization)
    (hagree : ∀ key : String,
      key ≠ cr.GroupVersionKind.Group ++ "/name" →
      key ≠ cr.GroupVersionKind.Group ++ "/uid" →
      (key ≠ cr.GroupVersionKind.Group ++ "/namespace" ∨ cr.Namespace = "") →
      k1.label key = k2.label key) :
    (LabelPropagator.Patch cr k1).k.CommonLabels = (LabelPropagator.Patch cr k2).k.CommonLabels := by
  simp only [LabelPropagator.Patch]
  congr 1
  funext key
  apply copyLabels_congr
  by_cases h1 : key = cr.GroupVersionKind.Group ++ "/uid"
  · simp [StringMap.set, h1]
  by_cases h2 : key = cr.GroupVersionKind.Group ++ "/name"
  · simp [StringMap.set, h1, h2]
  by_cases hns : cr.Namespace = ""
  · have := hagree key h2 h1 (Or.inr hns)
    simp only [Kustomization.label] at this
    simp only [StringMap.set, h1, h2, hns, if_false, ne_eq, not_true_eq_false]
    cases hk1 : k1.CommonLabels <;> cases hk2 : k2.CommonLabels <;>
      simp_all [StringMap.empty]
  · by_cases h3 : key = cr.GroupVersionKind.Group ++ "/namespace"
    · simp [StringMap.set, h1, h2, h3, hns]
    · have := hagree key h2 h1 (Or.inl h3)
      simp only [Kustomization.label] at this
      simp only [StringMap.set, h1, h2, h3, hns, if_false, ne_eq, not_false_eq_true, if_true]
      cases hk1 : k1.CommonLabels <;> cases hk2 : k2.CommonLabels <;>
        simp_all [StringMap.empty]

/-! ## Name prefixers: the contract -/

/-- C6: `NamePrefixer.Patch` sets the name prefix to the parent's name followed
by `-`, `NamespaceNamePrefixer.Patch` sets it to the parent's namespace, `-`,
the parent's name, `-`, whatever it was before; both leave the variable
references, the common labels and the patch list as they were and return a nil
error. -/
theorem prefixers_contract (cr : ParentResource) (k : Kustomization) :
    ((NamePrefixer.Patch cr k).err = none ∧
      (NamePrefixer.Patch cr k).k.NamePrefix = cr.Name ++ "-" ∧
      (NamePrefixer.Patch cr k).k.Vars = k.Vars ∧
      (NamePrefixer.Patch cr k).k.CommonLabels = k.CommonLabels ∧
      (NamePrefixer.Patch cr k).k.PatchesStrategicMerge = k.PatchesStrategicMerge) ∧
    ((NamespaceNamePrefixer.Patch cr k).err = none ∧
      (NamespaceNamePrefixer.Patch cr k).k.NamePrefix
        = cr.Namespace ++ "-" ++ cr.Name ++ "-" ∧
      (NamespaceNamePrefixer.Patch cr k).k.Vars = k.Vars ∧
      (NamespaceNamePrefixer.Patch cr k).k.CommonLabels = k.CommonLabels ∧
      (NamespaceNamePrefixer.Patch cr k).k.PatchesStrategicMerge = k.PatchesStrategicMerge) :=
  ⟨⟨rfl, rfl, rfl, rfl, rfl⟩, ⟨rfl, rfl, rfl, rfl, rfl⟩⟩

/-- The prefixes of C6 for the parent `nm` in namespace `ns` on a configuration
whose prefix was `old-`. -/
theorem prefixers_contract_witness :
    (NamePrefixer.Patch exParent exConfig).k.NamePrefix = "nm-" ∧
    (NamespaceNamePrefixer.Patch exParent exConfig).k.NamePrefix = "ns-nm-" := by
  have h := prefixers_contract exParent exConfig
  exact ⟨h.1.2.1, h.2.2.1⟩

/-! ## Lemmas on the field helpers and the loops of `Generate` -/

/-- A path with a missing key reads as "not found", without an error. -/
theorem nestedFieldLoop_missingKey (all : List String) (fields : List String) (m : Object)
    (i : Nat) (h : missingKey m fields = true) :
    nestedFieldLoop all (.map m) i fields = .ok none := by
  induction fields generalizing m i with
  | nil => simp [missingKey] at h
  | cons field rest ih =>
    simp only [missingKey] at h
    simp only [nestedFieldLoop]
    cases hget : mapGet m field with
    | none => rfl
    | some v =>
      rw [hget] at h
      cases v with
      | map inner => exact ih inner (i + 1) h
      | null => simp at h
      | bool b => simp at h
      | int n => simp at h
      | float bits => simp at h
      | str t => simp at h
      | list xs => simp at h

theorem nestedFieldCopy_missingKey (obj : Object) (fields : List String)
    (h : missingKey obj fields = true) : NestedFieldCopy obj fields = .ok none :=
  nestedFieldLoop_missingKey fields fields obj 0 h

/-- A path that descends through a value that is not a map cannot be written. -/
theorem setNestedFieldLoop_descends (all : List String) (value : Value) (fields : List String)
    (m : Object) (i : Nat) (h : descendsThroughNonMap m fields = true) :
    ∃ e, setNestedFieldLoop all value m i fields = .error e := by
  induction fields generalizing m i with
  | nil => simp [descendsThroughNonMap] at h
  | cons field rest ih =>
    cases rest with
    | nil => simp [descendsThroughNonMap] at h
    | cons next tail =>
      simp only [descendsThroughNonMap] at h
      simp only [setNestedFieldLoop]
      cases hget : mapGet m field with
      | none => rw [hget] at h; simp at h
      | some v =>
        rw [hget] at h
        cases v with
        | map inner =>
          obtain ⟨e, he⟩ := ih inner (i + 1) h
          exact ⟨e, by simp [he]⟩
        | null => exact ⟨_, rfl⟩
        | bool b => exact ⟨_, rfl⟩
        | int n => exact ⟨_, rfl⟩
        | float bits => exact ⟨_, rfl⟩
        | str t => exact ⟨_, rfl⟩
        | list xs => exact ⟨_, rfl⟩

theorem setNestedField_descends (obj : Object) (value : Value) (fields : List String)
    (h : descendsThroughNonMap obj fields = true) :
    ∃ e, SetNestedField obj value fields = .error e :=
  setNestedFieldLoop_descends fields value fields obj 0 h

/-- The bindings loop on a list in two parts: the second part starts from the
object the first part built, and an error of the first part is the result. -/
theorem applyBindings_append (content : Object) (first second : List FieldBinding)
    (obj : Object) :
    applyBindings content obj (first ++ second) =
      match applyBindings content obj first with
      | .ok built => applyBindings content built second
      | .error e => .error e := by
  induction first generalizing obj with
  | nil => rfl
  | cons binding rest ih =>
    simp only [List.cons_append, applyBindings]
    cases hread : NestedFieldCopy content (Split binding.From '.') with
    | error e => rfl
    | ok found =>
      cases found with
      | none => exact ih obj
      | some val =>
        simp only
        cases hwrite : SetNestedField obj val (Split binding.To '.') with
        | error e => rfl
        | ok obj1 => exact ih obj1

/-- An overlay whose object cannot be built makes the overlay loop fail,
wherever it stands in the list. -/
theorem generateLoop_error (marshal : Unstructured → Except Error String) (cr : ParentResource)
    (before after : List Overlay) (overlay : Overlay) (e : Error)
    (h : overlayObject cr overlay = .error e) (text : String) :
    ∃ e1, generateLoop marshal cr text (before ++ overlay :: after) = .error e1 := by
  induction before generalizing text with
  | nil =>
    refine ⟨e, ?_⟩
    simp [generateLoop, h]
  | cons first rest ih =>
    simp only [List.cons_append, generateLoop]
    cases hobj : overlayObject cr first with
    | error e1 => exact ⟨e1, rfl⟩
    | ok obj =>
      simp only
      cases hdoc : marshal obj with
      | error e1 => exact ⟨e1, rfl⟩
      | ok doc => exact ih _

/-- When every overlay is built and marshalled, the overlay loop appends the
multi-document text of the documents to the text it started from. -/
theorem generateLoop_ok (marshal : Unstructured → Except Error String) (cr : ParentResource)
    (overlays : List Overlay) (docs : List String)
    (h : List.Forall₂
      (fun overlay doc => ∃ obj, overlayObject cr overlay = .ok obj ∧ marshal obj = .ok doc)
      overlays docs)
    (text : String) :
    generateLoop marshal cr text overlays = .ok (text ++ multiDocument docs) := by
  induction h generalizing text with
  | nil => simp [generateLoop, multiDocument]
  | cons hd _ ih =>
    obtain ⟨obj, hobj, hdoc⟩ := hd
    simp only [generateLoop, hobj, hdoc, multiDocument]
    rw [ih]
    simp only [String.append_assoc]

/-! ## PatchOverlayGenerator: the contract -/

/-- C7: for a non-empty list of overlays each of which is built without a read
or write error and marshalled without an error, `Generate` returns a nil error
and exactly one file, named `overlaypatch.yaml`, whose data is the
concatenation, in list order, of `---\n` followed by the document of each
overlay; `marshal` is any function standing for `yaml.Marshal`. -/
theorem generate_output_format (marshal : Unstructured → Except Error String)
    (pog : PatchOverlayGenerator) (cr : ParentResource) (k : Kustomization)
    (docs : List String) (hne : pog.Overlays ≠ [])
    (hdocs : List.Forall₂
      (fun overlay doc => ∃ obj, overlayObject cr overlay = .ok obj ∧ marshal obj = .ok doc)
      pog.Overlays docs) :
    (pog.Generate marshal cr k).err = none ∧
    (pog.Generate marshal cr k).files
      = some [{ Name := "overlaypatch.yaml", Data := multiDocument docs }] := by
  have hlen : ¬ pog.Overlays.length = 0 := fun h => hne (List.length_eq_zero.mp h)
  unfold PatchOverlayGenerator.Generate
  rw [if_neg hlen, generateLoop_ok marshal cr pog.Overlays docs hdocs ""]
  simp [fileName]

/-- The output of C7 for two overlays: two documents, each after `---\n`. -/
theorem generate_output_format_witness :
    (PatchOverlayGenerator.Generate exMarshal ⟨[exOverlayGood, exOverlayAbsent]⟩ exParent
      exConfig).err = none ∧
    (PatchOverlayGenerator.Generate exMarshal ⟨[exOverlayGood, exOverlayAbsent]⟩ exParent
      exConfig).files = some [{ Name := "overlaypatch.yaml",
                                Data := "---\nConfigMap\n---\nSecret\n" }] :=
  generate_output_format exMarshal ⟨[exOverlayGood, exOverlayAbsent]⟩ exParent exConfig
    ["ConfigMap\n", "Secret\n"] (by decide)
    (List.Forall₂.cons ⟨_, rfl, rfl⟩ (List.Forall₂.cons ⟨_, rfl, rfl⟩ List.Forall₂.nil))

/-- C8: after a call of `Generate` with a non-empty list of overlays that
returns a nil error, the patch list of the configuration is the former one with
the single entry `overlaypatch.yaml` appended at the end, and the variable
references, the name prefix and the common labels are the former ones. -/
theorem generate_registers_file_once (marshal : Unstructured → Except Error String)
    (pog : PatchOverlayGenerator) (cr : ParentResource) (k : Kustomization)
    (hne : pog.Overlays ≠ []) (hok : (pog.Generate marshal cr k).err = none) :
    (pog.Generate marshal cr k).k.PatchesStrategicMerge
      = k.PatchesStrategicMerge ++ ["overlaypatch.yaml"] ∧
    (pog.Generate marshal cr k).k.Vars = k.Vars ∧
    (pog.Generate marshal cr k).k.NamePrefix = k.NamePrefix ∧
    (pog.Generate marshal cr k).k.CommonLabels = k.CommonLabels := by
  have hlen : ¬ pog.Overlays.length = 0 := fun h => hne (List.length_eq_zero.mp h)
  unfold PatchOverlayGenerator.Generate at hok ⊢
  rw [if_neg hlen] at hok ⊢
  cases hloop : generateLoop marshal cr "" pog.Overlays with
  | error e => rw [hloop] at hok; simp at hok
  | ok text => exact ⟨rfl, rfl, rfl, rfl⟩

/-- The patch list of C8 after a call with two overlays on a configuration
that listed `base.yaml`. -/
theorem generate_registers_file_once_witness :
    (PatchOverlayGenerator.Generate exMarshal ⟨[exOverlayGood, exOverlayAbsent]⟩ exParent
      exConfig).k.PatchesStrategicMerge = ["base.yaml", "overlaypatch.yaml"] :=
  (generate_registers_file_once exMarshal ⟨[exOverlayGood, exOverlayAbsent]⟩ exParent exConfig
    (by decide) (by decide)).1

/-- C9 as stated fails when the target path is a field the overlay sets
itself: the source `spec.missing` is a missing key of the parent, `Generate`
returns no error, the object is the one holding the overlay's apiVersion, kind,
name and namespace, and it has the value `Secret` at the target path `kind`. -/
theorem generate_absent_source_target_kind :
    exOverlayAbsentToKind.Bindings = [{ From := "spec.missing", To := "kind" }] ∧
    missingKey exParent.Content (Split "spec.missing" '.') = true ∧
    (PatchOverlayGenerator.Generate exMarshal ⟨[exOverlayAbsentToKind]⟩ exParent
      exConfig).err = none ∧
    overlayObject exParent exOverlayAbsentToKind
      = .ok (newOverlayObject exOverlayAbsentToKind) ∧
    NestedFieldCopy (newOverlayObject exOverlayAbsentToKind).Object (Split "kind" '.')
      = .ok (some (.str "Secret")) :=
  ⟨rfl, rfl, rfl, rfl, rfl⟩

/-- The object of a fresh overlay has no keys other than `apiVersion`, `kind`
and `metadata`. -/
theorem newOverlayObject_keys (overlay : Overlay) (field : String)
    (h1 : field ≠ "apiVersion") (h2 : field ≠ "kind") (h3 : field ≠ "metadata") :
    mapGet (newOverlayObject overlay).Object field = none := by
  have h1s : ¬ "apiVersion" = field := fun h => h1 h.symm
  have h2s : ¬ "kind" = field := fun h => h2 h.symm
  have h3s : ¬ "metadata" = field := fun h => h3 h.symm
  by_cases hn : overlay.Name.length = 0 <;> by_cases hs : overlay.Namespace.length = 0 <;>
    simp [newOverlayObject, Unstructured.SetAPIVersion, Unstructured.SetKind,
      Unstructured.SetName, Unstructured.SetNamespace, Unstructured.setNestedField,
      SetNestedField, setNestedFieldLoop, RemoveNestedField, mapSet, mapGet, mapDelete,
      hn, hs, h1s, h2s, h3s]

theorem splitChars_ne_nil (sep : Char) (cs : List Char) : splitChars sep cs ≠ [] := by
  induction cs with
  | nil => simp [splitChars]
  | cons c rest ih =>
    simp only [splitChars]
    split
    · simp
    · split <;> simp

theorem Split_ne_nil (s : String) (sep : Char) : Split s sep ≠ [] := by
  simp [Split, splitChars_ne_nil]

/-- C10: when some overlay of the list has a binding whose source path
resolves to a value and whose target path descends through a value that is
not a map in the overlay object built by the bindings before it (none of which
failed), `Generate` returns a non-nil error and no file. -/
theorem generate_rejects_invalid_target (marshal : Unstructured → Except Error String)
    (pog : PatchOverlayGenerator) (cr : ParentResource) (k : Kustomization)
    (before after : List Overlay) (overlay : Overlay)
    (earlier later : List FieldBinding) (binding : FieldBinding) (obj : Object) (val : Value)
    (hov : pog.Overlays = before ++ overlay :: after)
    (hb : overlay.Bindings = earlier ++ binding :: later)
    (hbuilt : applyBindings cr.Content (newOverlayObject overlay).Object earlier = .ok obj)
    (hfrom : NestedFieldCopy cr.Content (Split binding.From '.') = .ok (some val))
    (hto : descendsThroughNonMap obj (Split binding.To '.') = true) :
    (∃ e, (pog.Generate marshal cr k).err = some e) ∧
    (pog.Generate marshal cr k).files = none := by
  obtain ⟨e, he⟩ := setNestedField_descends obj val (Split binding.To '.') hto
  have hobj : overlayObject cr overlay = .error e := by
    simp [overlayObject, hb, applyBindings_append, hbuilt, applyBindings, hfrom, he]
  obtain ⟨e1, he1⟩ := generateLoop_error marshal cr before after overlay e hobj ""
  have hlen : ¬ pog.Overlays.length = 0 := by
    rw [hov]
    simp
  unfold PatchOverlayGenerator.Generate
  rw [if_neg hlen, hov, he1]
  exact ⟨⟨e1, rfl⟩, rfl⟩

/-- The rejection of C10 for the target path `kind.x`, in the second overlay
of the list and after a binding that succeeded. -/
theorem generate_rejects_invalid_target_witness :
    (∃ e, (PatchOverlayGenerator.Generate exMarshal ⟨[exOverlayGood, exOverlayBelowKind]⟩
      exParent exConfig).err = some e) ∧
    (PatchOverlayGenerator.Generate exMarshal ⟨[exOverlayGood, exOverlayBelowKind]⟩
      exParent exConfig).files = none :=
  generate_rejects_invalid_target exMarshal ⟨[exOverlayGood, exOverlayBelowKind]⟩ exParent
    exConfig [exOverlayGood] [] exOverlayBelowKind
    [{ From := "spec.a", To := "data.x" }] [{ From := "spec.a", To := "data.z" }]
    { From := "spec.b", To := "kind.x" }
    [("apiVersion", .str "v1"), ("kind", .str "Deployment"),
     ("metadata", .map [("name", .str "d"), ("namespace", .str "default")]),
     ("data", .map [("x", .str "A")])]
    (.str "B") rfl rfl rfl rfl rfl

/-! ## PatchOverlayGenerator: failures and the empty list -/

/-- A path that continues below a value that is neither a map nor null cannot
be read. -/
theorem nestedFieldLoop_blocking (all : List String) (fields : List String) (m : Object)
    (i : Nat) (v : Value) (h : blockingValue m fields = some v) (hv : v ≠ .null) :
    ∃ e, nestedFieldLoop all (.map m) i fields = .error e := by
  induction fields generalizing m i with
  | nil => simp [blockingValue] at h
  | cons field rest ih =>
    simp only [blockingValue] at h
    simp only [nestedFieldLoop]
    cases hget : mapGet m field with
    | none => rw [hget] at h; simp at h
    | some w =>
      rw [hget] at h
      cases rest with
      | nil => cases w <;> simp [blockingValue] at h
      | cons next tail =>
        cases w with
        | map inner => exact ih inner (i + 1) h
        | null =>
          simp at h
          exact absurd h.symm hv
        | bool b => exact ⟨_, rfl⟩
        | int n => exact ⟨_, rfl⟩
        | float bits => exact ⟨_, rfl⟩
        | str t => exact ⟨_, rfl⟩
        | list xs => exact ⟨_, rfl⟩

theorem nestedFieldCopy_blocking (obj : Object) (fields : List String) (v : Value)
    (h : blockingValue obj fields = some v) (hv : v ≠ .null) :
    ∃ e, NestedFieldCopy obj fields = .error e :=
  nestedFieldLoop_blocking fields fields obj 0 v h hv

/-- C11 as stated fails for a null: the source path `spec.n.b` continues below
the value at `spec.n`, which is null and not a map, and `Generate` skips the
binding, returning a nil error and the file. -/
theorem generate_reads_below_null :
    blockingValue exParentNull.Content (Split "spec.n.b" '.') = some .null ∧
    exOverlayBelowNull.Bindings = [{ From := "spec.n.b", To := "data.y" }] ∧
    (PatchOverlayGenerator.Generate exMarshal ⟨[exOverlayBelowNull]⟩ exParentNull
      exConfig).err = none ∧
    (PatchOverlayGenerator.Generate exMarshal ⟨[exOverlayBelowNull]⟩ exParentNull
      exConfig).files = some [{ Name := "overlaypatch.yaml", Data := "---\nDeployment\n" }] :=
  ⟨rfl, rfl, rfl, rfl⟩

/-- A path that continues below a null reads as "not found", without an
error. -/
theorem nestedFieldLoop_below_null (all : List String) (fields : List String) (m : Object)
    (i : Nat) (h : blockingValue m fields = some .null) :
    nestedFieldLoop all (.map m) i fields = .ok none := by
  induction fields generalizing m i with
  | nil => simp [blockingValue] at h
  | cons field rest ih =>
    simp only [blockingValue] at h
    simp only [nestedFieldLoop]
    cases hget : mapGet m field with
    | none => rfl
    | some w =>
      rw [hget] at h
      cases rest with
      | nil => cases w <;> simp [blockingValue] at h
      | cons next tail =>
        cases w with
        | map inner => exact ih inner (i + 1) h
        | null => rfl
        | bool b => simp at h
        | int n => simp at h
        | float bits => simp at h
        | str t => simp at h
        | list xs => simp at h

/-- A binding whose source is not found can be left out of the list. -/
theorem applyBindings_skip (content : Object) (earlier later : List FieldBinding)
    (binding : FieldBinding) (obj : Object)
    (hfrom : NestedFieldCopy content (Split binding.From '.') = .ok none) :
    applyBindings content obj (earlier ++ binding :: later)
      = applyBindings content obj (earlier ++ later) := by
  rw [applyBindings_append, applyBindings_append]
  cases applyBindings content obj earlier with
  | error e => rfl
  | ok built => simp [applyBindings, hfrom]

/-- The overlay loop sees an overlay through the object built for it only. -/
theorem generateLoop_congr (marshal : Unstructured → Except Error String) (cr : ParentResource)
    (before after : List Overlay) (first second : Overlay)
    (h : overlayObject cr first = overlayObject cr second) (text : String) :
    generateLoop marshal cr text (before ++ first :: after)
      = generateLoop marshal cr text (before ++ second :: after) := by
  induction before generalizing text with
  | nil => simp [generateLoop, h]
  | cons head rest ih =>
    simp only [List.cons_append, generateLoop]
    cases overlayObject cr head with
    | error e => rfl
    | ok obj =>
      simp only
      cases marshal obj with
      | error e => rfl
      | ok doc => exact ih _

/-- C11, amended: when some overlay of the list has a binding whose source
path continues below a value of the parent's content that is not a map, then:
if that value is not null and the bindings before it in that overlay did not
fail, `Generate` returns a non-nil error and no file; if that value is null,
the binding is skipped, that is, `Generate` returns what it returns for the
list of overlays without that binding. -/
theorem generate_rejects_unreadable_source (marshal : Unstructured → Except Error String)
    (pog : PatchOverlayGenerator) (cr : ParentResource) (k : Kustomization)
    (before after : List Overlay) (overlay : Overlay)
    (earlier later : List FieldBinding) (binding : FieldBinding) (v : Value)
    (hov : pog.Overlays = before ++ overlay :: after)
    (hb : overlay.Bindings = earlier ++ binding :: later)
    (hblock : blockingValue cr.Content (Split binding.From '.') = some v) :
    (v ≠ .null → ∀ obj : Object,
      applyBindings cr.Content (newOverlayObject overlay).Object earlier = .ok obj →
      (∃ e, (pog.Generate marshal cr k).err = some e) ∧
      (pog.Generate marshal cr k).files = none) ∧
    (v = .null →
      pog.Generate marshal cr k
        = PatchOverlayGenerator.Generate marshal
            { Overlays := before ++ { overlay with Bindings := earlier ++ later } :: after }
            cr k) := by
  have hlen : ¬ pog.Overlays.length = 0 := by
    rw [hov]
    simp
  constructor
  · intro hv obj hbuilt
    obtain ⟨e, he⟩ := nestedFieldCopy_blocking cr.Content (Split binding.From '.') v hblock hv
    have hobj : overlayObject cr overlay = .error e := by
      simp [overlayObject, hb, applyBindings_append, hbuilt, applyBindings, he]
    obtain ⟨e1, he1⟩ := generateLoop_error marshal cr before after overlay e hobj ""
    unfold PatchOverlayGenerator.Generate
    rw [if_neg hlen, hov, he1]
    exact ⟨⟨e1, rfl⟩, rfl⟩
  · intro hv
    rw [hv] at hblock
    have hfrom : NestedFieldCopy cr.Content (Split binding.From '.') = .ok none :=
      nestedFieldLoop_below_null _ _ cr.Content 0 hblock
    have hobj : overlayObject cr overlay
        = overlayObject cr { overlay with Bindings := earlier ++ later } := by
      have hbase : newOverlayObject { overlay with Bindings := earlier ++ later }
          = newOverlayObject overlay := rfl
      simp only [overlayObject, hb, hbase]
      rw [applyBindings_skip cr.Content earlier later binding _ hfrom]
    have hlen2 : ¬ (before ++ { overlay with Bindings := earlier ++ later } :: after).length
        = 0 := by simp
    unfold PatchOverlayGenerator.Generate
    simp only [if_neg hlen, if_neg hlen2]
    rw [hov, generateLoop_congr marshal cr before after overlay _ hobj ""]

/-- The amended C11 on concrete inputs: the source path `spec.a.b`, below the
string at `spec.a`, makes `Generate` fail in the second overlay of the list;
the source path `spec.n.b`, below the null at `spec.n`, gives the files of
the overlay without bindings. -/
theorem generate_rejects_unreadable_source_witness :
    ((∃ e, (PatchOverlayGenerator.Generate exMarshal ⟨[exOverlayGood, exOverlayBelowString]⟩
      exParent exConfig).err = some e) ∧
    (PatchOverlayGenerator.Generate exMarshal ⟨[exOverlayGood, exOverlayBelowString]⟩
      exParent exConfig).files = none) ∧
    (PatchOverlayGenerator.Generate exMarshal ⟨[exOverlayBelowNull]⟩ exParentNull
      exConfig).files
      = (PatchOverlayGenerator.Generate exMarshal
          ⟨[{ exOverlayBelowNull with Bindings := [] }]⟩ exParentNull exConfig).files :=
  ⟨(generate_rejects_unreadable_source exMarshal ⟨[exOverlayGood, exOverlayBelowString]⟩
      exParent exConfig [exOverlayGood] [] exOverlayBelowString
      [{ From := "spec.a", To := "data.x" }] [] { From := "spec.a.b", To := "data.y" }
      (.str "A") rfl rfl rfl).1 (fun h => Value.noConfusion h)
      [("apiVersion", .str "v1"), ("kind", .str "Deployment"),
       ("metadata", .map [("name", .str "d"), ("namespace", .str "default")]),
       ("data", .map [("x", .str "A")])] rfl,
    congrArg GenerateResult.files
      ((generate_rejects_unreadable_source exMarshal ⟨[exOverlayBelowNull]⟩ exParentNull
        exConfig [] [] exOverlayBelowNull [] [] { From := "spec.n.b", To := "data.y" }
        .null rfl rfl rfl).2 rfl)⟩

/-- C12: whenever `Generate` returns a non-nil error, it returns no file and
the configuration is the one before the call; in particular its patch list is
the former one. -/
theorem generate_atomic_on_failure (marshal : Unstructured → Except Error String)
    (pog : PatchOverlayGenerator) (cr : ParentResource) (k : Kustomization) (e : Error)
    (herr : (pog.Generate marshal cr k).err = some e) :
    (pog.Generate marshal cr k).files = none ∧
    (pog.Generate marshal cr k).k = k ∧
    (pog.Generate marshal cr k).k.PatchesStrategicMerge = k.PatchesStrategicMerge := by
  unfold PatchOverlayGenerator.Generate at herr ⊢
  by_cases hlen : pog.Overlays.length = 0
  · rw [if_pos hlen] at herr ⊢
    exact ⟨rfl, rfl, rfl⟩
  · rw [if_neg hlen] at herr ⊢
    cases hloop : generateLoop marshal cr "" pog.Overlays with
    | error e1 => exact ⟨rfl, rfl, rfl⟩
    | ok text => rw [hloop] at herr; simp at herr

/-- The failure of C12 in the last overlay, after an overlay that was built
and marshalled: no file, and the patch list still holds `base.yaml` only. -/
theorem generate_atomic_on_failure_witness :
    (PatchOverlayGenerator.Generate exMarshal ⟨[exOverlayGood, exOverlayBelowKind]⟩ exParent
      exConfig).files = none ∧
    (PatchOverlayGenerator.Generate exMarshal ⟨[exOverlayGood, exOverlayBelowKind]⟩ exParent
      exConfig).k.PatchesStrategicMerge = ["base.yaml"] := by
  have h := generate_atomic_on_failure exMarshal ⟨[exOverlayGood, exOverlayBelowKind]⟩ exParent
    exConfig (.setError ["kind"]) (by decide)
  exact ⟨h.1, h.2.2⟩

/-- C14: with an empty list of overlays `Generate` returns no files and a nil
error, and the configuration is the one before the call; its patch list
is the former one. -/
theorem generate_without_overlays (marshal : Unstructured → Except Error String)
    (cr : ParentResource) (k : Kustomization) :
    (PatchOverlayGenerator.Generate marshal { Overlays := [] } cr k).files = none ∧
    (PatchOverlayGenerator.Generate marshal { Overlays := [] } cr k).err = none ∧
    (PatchOverlayGenerator.Generate marshal { Overlays := [] } cr k).k = k ∧
    (PatchOverlayGenerator.Generate marshal { Overlays := [] } cr k).k.PatchesStrategicMerge
      = k.PatchesStrategicMerge :=
  ⟨rfl, rfl, rfl, rfl⟩

/-- The call of C14 on `exConfig`, with a marshaller that would fail: the
patch list still holds `base.yaml` only. -/
theorem generate_without_overlays_witness :
    (PatchOverlayGenerator.Generate exMarshalFails { Overlays := [] } exParent exConfig).err
      = none ∧
    (PatchOverlayGenerator.Generate exMarshalFails { Overlays := [] } exParent
      exConfig).k.PatchesStrategicMerge = ["base.yaml"] := by
  have h := generate_without_overlays exMarshalFails exParent exConfig
  exact ⟨h.2.1, h.2.2.2⟩

/-! ## VariantFiller without variable references -/

/-- C15: on a configuration whose list of variable references is empty,
`VariantFiller.Patch` returns a nil error and the configuration as it was. -/
theorem variantFiller_without_vars (gvkOf : Target → Gvk) (cr : ParentResource)
    (k : Kustomization) (hvars : k.Vars = []) :
    (VariantFiller.Patch gvkOf cr k).err = none ∧ (VariantFiller.Patch gvkOf cr k).k = k := by
  unfold VariantFiller.Patch
  rw [if_pos (by rw [hvars]; rfl)]
  exact ⟨rfl, rfl⟩

/-- The call of C15 on `exConfig` without its variable references. -/
theorem variantFiller_without_vars_witness :
    (VariantFiller.Patch Target.GVK exParent { exConfig with Vars := [] }).err = none ∧
    (VariantFiller.Patch Target.GVK exParent { exConfig with Vars := [] }).k
      = { exConfig with Vars := [] } :=
  variantFiller_without_vars Target.GVK exParent { exConfig with Vars := [] } rfl

/-! ## Idempotence and order of the labels -/

theorem fillVar_idem (gvkOf : Target → Gvk) (cr : ParentResource) (v : Var) :
    fillVar gvkOf cr (fillVar gvkOf cr v) = fillVar gvkOf cr v := by
  by_cases h1 : cr.GroupVersionKind = getSchemaGVK (gvkOf v.ObjRef)
  · have hfill : fillVar gvkOf cr v =
        { v with ObjRef := { v.ObjRef with Name := cr.Name, Namespace := cr.Namespace } } := by
      simp [fillVar, h1]
    rw [hfill]
    unfold fillVar
    split <;> rfl
  · have hfill : fillVar gvkOf cr v = v := by simp [fillVar, h1]
    rw [hfill, hfill]

/-- On a key that is a label of the parent, the copy does not depend on the map
it starts from. -/
theorem copyLabels_of_key (labels : List (String × String)) (m1 m2 : StringMap) (key : String)
    (h : key ∈ labels.map Prod.fst) : copyLabels m1 labels key = copyLabels m2 labels key := by
  induction labels generalizing m1 m2 with
  | nil => simp at h
  | cons kv rest ih =>
    rw [copyLabels_cons, copyLabels_cons]
    by_cases hrest : key ∈ rest.map Prod.fst
    · exact ih _ _ hrest
    · have hkey : key = kv.1 := by
        rw [List.map_cons, List.mem_cons] at h
        exact h.resolve_right hrest
      apply copyLabels_congr
      simp [StringMap.set, hkey]

theorem not_mem_keys (labels : List (String × String)) (key : String)
    (h : key ∉ labels.map Prod.fst) : ∀ kv ∈ labels, kv.1 ≠ key :=
  fun _ hkv hk => h (hk ▸ List.mem_map_of_mem Prod.fst hkv)

/-- The entry of the common labels after `LabelPropagator.Patch` at a key that
is not a label of the parent. -/
theorem labelPropagator_label_of_not_key (cr : ParentResource) (k : Kustomization)
    (key : String) (h : key ∉ cr.Labels.map Prod.fst) :
    (LabelPropagator.Patch cr k).k.label key = derivedLabel cr k key := by
  simp only [LabelPropagator.Patch, Kustomization.label]
  rw [copyLabels_other _ _ _ (not_mem_keys _ _ h)]
  unfold derivedLabel
  by_cases h1 : key = cr.GroupVersionKind.Group ++ "/uid"
  · simp [StringMap.set, h1]
  by_cases h2 : key = cr.GroupVersionKind.Group ++ "/name"
  · simp [StringMap.set, h1, h2]
  by_cases hns : cr.Namespace = ""
  · simp only [StringMap.set, h1, h2, hns, if_false, ne_eq, not_true_eq_false, and_false,
      Kustomization.label]
    cases k.CommonLabels <;> rfl
  · by_cases h3 : key = cr.GroupVersionKind.Group ++ "/namespace"
    · simp [StringMap.set, h1, h2, h3, hns]
    · simp only [StringMap.set, h1, h2, h3, hns, if_false, ne_eq, not_false_eq_true, if_true,
        and_true, false_and, Kustomization.label]
      cases k.CommonLabels <;> rfl

/-- The derived entries do not change when `k` is replaced by the result of the
patch, at a key that is not a label of the parent. -/
theorem derivedLabel_idem (cr : ParentResource) (k : Kustomization) (key : String)
    (h : key ∉ cr.Labels.map Prod.fst) :
    derivedLabel cr (LabelPropagator.Patch cr k).k key = derivedLabel cr k key := by
  have hprior := labelPropagator_label_of_not_key cr k key h
  unfold derivedLabel at hprior ⊢
  by_cases h1 : key = cr.GroupVersionKind.Group ++ "/uid"
  · simp [h1]
  by_cases h2 : key = cr.GroupVersionKind.Group ++ "/name"
  · simp [h1, h2]
  by_cases h3 : key = cr.GroupVersionKind.Group ++ "/namespace" ∧ cr.Namespace ≠ ""
  · simp [h1, h2, h3]
  · simp only [h1, h2, h3, if_false] at hprior ⊢
    exact hprior

theorem labelPropagator_idem (cr : ParentResource) (k : Kustomization) :
    (LabelPropagator.Patch cr (LabelPropagator.Patch cr k).k).k = (LabelPropagator.Patch cr k).k := by
  have hmap : ∀ key : String,
      (LabelPropagator.Patch cr (LabelPropagator.Patch cr k).k).k.label key
        = (LabelPropagator.Patch cr k).k.label key := by
    intro key
    by_cases hkey : key ∈ cr.Labels.map Prod.fst
    · simp only [LabelPropagator.Patch, Kustomization.label]
      exact copyLabels_of_key _ _ _ _ hkey
    · rw [labelPropagator_label_of_not_key cr _ key hkey,
        labelPropagator_label_of_not_key cr k key hkey, derivedLabel_idem cr k key hkey]
  have hfun : (LabelPropagator.Patch cr (LabelPropagator.Patch cr k).k).k.CommonLabels
      = (LabelPropagator.Patch cr k).k.CommonLabels := by
    simp only [LabelPropagator.Patch, Kustomization.label] at hmap ⊢
    exact congrArg some (funext hmap)
  simp only [LabelPropagator.Patch] at hfun ⊢
  rw [hfun]

/-- C13: each of `VariantFiller.Patch`, `NamePrefixer.Patch`,
`NamespaceNamePrefixer.Patch` and `LabelPropagator.Patch`, applied a second
time with the same parent to the configuration it produced, returns that
configuration. -/
theorem patchers_idempotent (gvkOf : Target → Gvk) (cr : ParentResource) (k : Kustomization) :
    (VariantFiller.Patch gvkOf cr (VariantFiller.Patch gvkOf cr k).k).k
      = (VariantFiller.Patch gvkOf cr k).k ∧
    (NamePrefixer.Patch cr (NamePrefixer.Patch cr k).k).k = (NamePrefixer.Patch cr k).k ∧
    (NamespaceNamePrefixer.Patch cr (NamespaceNamePrefixer.Patch cr k).k).k
      = (NamespaceNamePrefixer.Patch cr k).k ∧
    (LabelPropagator.Patch cr (LabelPropagator.Patch cr k).k).k
      = (LabelPropagator.Patch cr k).k := by
  refine ⟨?_, rfl, rfl, labelPropagator_idem cr k⟩
  unfold VariantFiller.Patch
  by_cases hlen : k.Vars.length = 0
  · simp [hlen]
  · have hfun : (fillVar gvkOf cr) ∘ (fillVar gvkOf cr) = fillVar gvkOf cr :=
      funext (fillVar_idem gvkOf cr)
    simp [hlen, hfun]

/-- The second application of C13 on `exConfig`: the variable references and
the prefix after two calls are those after one. -/
theorem patchers_idempotent_witness :
    (VariantFiller.Patch Target.GVK exParent
      (VariantFiller.Patch Target.GVK exParent exConfig).k).k.Vars
      = (VariantFiller.Patch Target.GVK exParent exConfig).k.Vars ∧
    (NamePrefixer.Patch exParent (NamePrefixer.Patch exParent exConfig).k).k.NamePrefix
      = "nm-" := by
  have h := patchers_idempotent Target.GVK exParent exConfig
  exact ⟨congrArg Kustomization.Vars h.1, congrArg Kustomization.NamePrefix h.2.1⟩

/-- C16: with the labels of the parent as a list of entries with pairwise
distinct keys, `LabelPropagator.Patch` gives the same common labels for every
permutation of the list; the map it gives holds every label of the parent, and
at every other key the prior entry updated at the derived keys. -/
theorem labelPropagator_order_independent (cr : ParentResource) (k : Kustomization)
    (permuted : List (String × String)) (hnd : (cr.Labels.map Prod.fst).Nodup)
    (hperm : cr.Labels.Perm permuted) :
    (LabelPropagator.Patch { cr with Labels := permuted } k).k.CommonLabels
      = (LabelPropagator.Patch cr k).k.CommonLabels ∧
    (∀ key val : String, (key, val) ∈ cr.Labels →
      (LabelPropagator.Patch cr k).k.label key = some val) ∧
    (∀ key : String, key ∉ cr.Labels.map Prod.fst →
      (LabelPropagator.Patch cr k).k.label key = derivedLabel cr k key) := by
  have hmem : ∀ key val : String, (key, val) ∈ cr.Labels →
      (LabelPropagator.Patch cr k).k.label key = some val := by
    intro key val hkv
    simp only [LabelPropagator.Patch, Kustomization.label]
    exact copyLabels_mem cr.Labels _ hnd (key, val) hkv
  refine ⟨?_, hmem, fun key hkey => labelPropagator_label_of_not_key cr k key hkey⟩
  have hnd2 : (permuted.map Prod.fst).Nodup := ((hperm.map Prod.fst).nodup_iff).mp hnd
  have hmap : ∀ key : String,
      (LabelPropagator.Patch { cr with Labels := permuted } k).k.label key
        = (LabelPropagator.Patch cr k).k.label key := by
    intro key
    by_cases hkey : key ∈ cr.Labels.map Prod.fst
    · obtain ⟨kv, hkv, hk⟩ := List.mem_map.mp hkey
      have hkv1 : (key, kv.2) ∈ cr.Labels := by rw [← hk]; exact hkv
      rw [hmem key kv.2 hkv1]
      simp only [LabelPropagator.Patch, Kustomization.label]
      exact copyLabels_mem permuted _ hnd2 (key, kv.2) ((hperm.mem_iff).mp hkv1)
    · have hkey2 : key ∉ permuted.map Prod.fst :=
        fun h => hkey (((hperm.map Prod.fst).mem_iff).mpr h)
      rw [labelPropagator_label_of_not_key cr k key hkey]
      exact labelPropagator_label_of_not_key { cr with Labels := permuted } k key hkey2
  simp only [LabelPropagator.Patch, Kustomization.label] at hmap ⊢
  exact congrArg some (funext hmap)

/-- The order independence of C16 for the two labels of `exParent`, visited
in the other order. -/
theorem labelPropagator_order_independent_witness :
    (LabelPropagator.Patch { exParent with Labels := [("tier", "db"), ("app", "web")] }
      exConfig).k.CommonLabels = (LabelPropagator.Patch exParent exConfig).k.CommonLabels ∧
    (LabelPropagator.Patch exParent exConfig).k.label "tier" = some "db" := by
  have h := labelPropagator_order_independent exParent exConfig
    [("tier", "db"), ("app", "web")] (by decide) (List.Perm.swap _ _ _)
  exact ⟨h.1, h.2.1 "tier" "db" (by decide)⟩

/-! ## Reading back what the bindings wrote -/

theorem mapGet_mapSet_same (m : Object) (key : String) (val : Value) :
    mapGet (mapSet m key val) key = some val := by
  induction m with
  | nil => simp [mapSet, mapGet]
  | cons entry rest ih =>
    obtain ⟨k0, v0⟩ := entry
    by_cases h : k0 = key
    · simp [mapSet, mapGet, h]
    · simp [mapSet, mapGet, h, ih]

theorem mapGet_mapSet_other (m : Object) (key other : String) (val : Value) (h : other ≠ key) :
    mapGet (mapSet m key val) other = mapGet m other := by
  induction m with
  | nil =>
    have h2 : ¬ key = other := fun e => h e.symm
    simp [mapSet, mapGet, h2]
  | cons entry rest ih =>
    obtain ⟨k0, v0⟩ := entry
    by_cases hk : k0 = key
    · have h2 : ¬ key = other := fun e => h e.symm
      simp [mapSet, mapGet, hk, h2]
    · by_cases ho : k0 = other
      · subst ho
        simp [mapSet, mapGet, h]
      · simp [mapSet, mapGet, hk, ho, ih]

/-- A write leaves the entries of the map at keys other than the first field
of the path as they were. -/
theorem setNestedFieldLoop_get_other (all : List String) (value : Value) (field : String)
    (rest : List String) (m m1 : Object) (i : Nat) (other : String)
    (hset : setNestedFieldLoop all value m i (field :: rest) = .ok m1) (h : other ≠ field) :
    mapGet m1 other = mapGet m other := by
  cases rest with
  | nil =>
    simp only [setNestedFieldLoop, Except.ok.injEq] at hset
    rw [← hset]
    exact mapGet_mapSet_other m field other value h
  | cons next tail =>
    simp only [setNestedFieldLoop] at hset
    cases hget : mapGet m field with
    | none =>
      rw [hget] at hset
      simp only at hset
      cases hin : setNestedFieldLoop all value [] (i + 1) (next :: tail) with
      | error e => rw [hin] at hset; simp at hset
      | ok inner =>
        rw [hin] at hset
        simp only [Except.ok.injEq] at hset
        rw [← hset]
        exact mapGet_mapSet_other m field other _ h
    | some v =>
      rw [hget] at hset
      cases v with
      | map valMap =>
        simp only at hset
        cases hin : setNestedFieldLoop all value valMap (i + 1) (next :: tail) with
        | error e => rw [hin] at hset; simp at hset
        | ok inner =>
          rw [hin] at hset
          simp only [Except.ok.injEq] at hset
          rw [← hset]
          exact mapGet_mapSet_other m field other _ h
      | null => simp at hset
      | bool b => simp at hset
      | int n => simp at hset
      | float bits => simp at hset
      | str t => simp at hset
      | list xs => simp at hset

/-- What a write stored is what a read of the same path finds. -/
theorem setNestedFieldLoop_read_back (all all2 : List String) (value : Value)
    (fields : List String) (m m1 : Object) (i j : Nat)
    (hset : setNestedFieldLoop all value m i fields = .ok m1) :
    nestedFieldLoop all2 (.map m1) j fields = .ok (some value) := by
  induction fields generalizing m m1 i j with
  | nil => simp [setNestedFieldLoop] at hset
  | cons field rest ih =>
    cases rest with
    | nil =>
      simp only [setNestedFieldLoop, Except.ok.injEq] at hset
      rw [← hset]
      simp [nestedFieldLoop, mapGet_mapSet_same]
    | cons next tail =>
      simp only [setNestedFieldLoop] at hset
      cases hget : mapGet m field with
      | none =>
        rw [hget] at hset
        simp only at hset
        cases hin : setNestedFieldLoop all value [] (i + 1) (next :: tail) with
        | error e => rw [hin] at hset; simp at hset
        | ok inner =>
          rw [hin] at hset
          simp only [Except.ok.injEq] at hset
          rw [← hset]
          simp only [nestedFieldLoop, mapGet_mapSet_same]
          exact ih [] inner (i + 1) (j + 1) hin
      | some v =>
        rw [hget] at hset
        cases v with
        | map valMap =>
          simp only at hset
          cases hin : setNestedFieldLoop all value valMap (i + 1) (next :: tail) with
          | error e => rw [hin] at hset; simp at hset
          | ok inner =>
            rw [hin] at hset
            simp only [Except.ok.injEq] at hset
            rw [← hset]
            simp only [nestedFieldLoop, mapGet_mapSet_same]
            exact ih valMap inner (i + 1) (j + 1) hin
        | null => simp at hset
        | bool b => simp at hset
        | int n => simp at hset
        | float bits => simp at hset
        | str t => simp at hset
        | list xs => simp at hset

/-- A write at a path leaves the read of another path as it was, when neither
path is a prefix of the other. -/
theorem setNestedFieldLoop_read_other (all all2 : List String) (value : Value)
    (written : List String) (read : List String) (m m1 : Object) (i j : Nat)
    (hset : setNestedFieldLoop all value m i written = .ok m1)
    (h1 : ¬ read <+: written) (h2 : ¬ written <+: read) :
    nestedFieldLoop all2 (.map m1) j read = nestedFieldLoop all2 (.map m) j read := by
  induction written generalizing read m m1 i j with
  | nil => simp [setNestedFieldLoop] at hset
  | cons g qs ih =>
    cases read with
    | nil => exact absurd List.nil_prefix h1
    | cons f ps =>
      by_cases hfg : f = g
      · subst hfg
        have h1t : ¬ ps <+: qs := fun h => h1 (List.cons_prefix_cons.mpr ⟨rfl, h⟩)
        have h2t : ¬ qs <+: ps := fun h => h2 (List.cons_prefix_cons.mpr ⟨rfl, h⟩)
        cases qs with
        | nil => exact absurd List.nil_prefix h2t
        | cons next tail =>
          simp only [setNestedFieldLoop] at hset
          cases hget : mapGet m f with
          | none =>
            rw [hget] at hset
            simp only at hset
            cases hin : setNestedFieldLoop all value [] (i + 1) (next :: tail) with
            | error e => rw [hin] at hset; simp at hset
            | ok inner =>
              rw [hin] at hset
              simp only [Except.ok.injEq] at hset
              rw [← hset]
              simp only [nestedFieldLoop, mapGet_mapSet_same, hget]
              rw [ih ps [] inner (i + 1) (j + 1) hin h1t h2t]
              cases ps with
              | nil => exact absurd List.nil_prefix h1t
              | cons p2 ptail => simp [nestedFieldLoop, mapGet]
          | some v =>
            rw [hget] at hset
            cases v with
            | map valMap =>
              simp only at hset
              cases hin : setNestedFieldLoop all value valMap (i + 1) (next :: tail) with
              | error e => rw [hin] at hset; simp at hset
              | ok inner =>
                rw [hin] at hset
                simp only [Except.ok.injEq] at hset
                rw [← hset]
                simp only [nestedFieldLoop, mapGet_mapSet_same, hget]
                exact ih ps valMap inner (i + 1) (j + 1) hin h1t h2t
            | null => simp at hset
            | bool b => simp at hset
            | int n => simp at hset
            | float bits => simp at hset
            | str t => simp at hset
            | list xs => simp at hset
      · simp only [nestedFieldLoop]
        rw [setNestedFieldLoop_get_other all value g qs m m1 i f hset hfg]

/-- The bindings loop leaves the entries of the object at a key as they were
when no target path starts with that key. -/
theorem applyBindings_get_other (content : Object) (bindings : List FieldBinding)
    (obj built : Object) (key : String)
    (hkey : ∀ b ∈ bindings, ∀ field ∈ (Split b.To '.').head?, field ≠ key)
    (hrun : applyBindings content obj bindings = .ok built) :
    mapGet built key = mapGet obj key := by
  induction bindings generalizing obj with
  | nil =>
    simp only [applyBindings, Except.ok.injEq] at hrun
    rw [hrun]
  | cons binding rest ih =>
    have hrest : ∀ b ∈ rest, ∀ field ∈ (Split b.To '.').head?, field ≠ key :=
      fun b hb => hkey b (List.mem_cons_of_mem _ hb)
    simp only [applyBindings] at hrun
    cases hread : NestedFieldCopy content (Split binding.From '.') with
    | error e => rw [hread] at hrun; simp at hrun
    | ok found =>
      rw [hread] at hrun
      cases found with
      | none => exact ih obj hrest hrun
      | some val =>
        simp only at hrun
        cases hwrite : SetNestedField obj val (Split binding.To '.') with
        | error e => rw [hwrite] at hrun; simp at hrun
        | ok obj1 =>
          rw [hwrite] at hrun
          rw [ih obj1 hrest hrun]
          cases hsplit : Split binding.To '.' with
          | nil => exact absurd hsplit (Split_ne_nil _ _)
          | cons field tail =>
            have hne : field ≠ key := by
              have := hkey binding (List.mem_cons_self _ _) field
              rw [hsplit] at this
              exact this (by simp)
            unfold SetNestedField at hwrite
            rw [hsplit] at hwrite
            exact setNestedFieldLoop_get_other _ val field tail obj obj1 0 key hwrite
              (fun e => hne e.symm)

/-- The bindings loop leaves the read of a path as it was when, for every
binding whose source resolves, neither the path nor the target path of the
binding is a prefix of the other. -/
theorem applyBindings_read_other (content : Object) (bindings : List FieldBinding)
    (obj built : Object) (read : List String)
    (hfree : ∀ b ∈ bindings, ∀ v, NestedFieldCopy content (Split b.From '.') = .ok (some v) →
      ¬ read <+: Split b.To '.' ∧ ¬ Split b.To '.' <+: read)
    (hrun : applyBindings content obj bindings = .ok built) :
    NestedFieldCopy built read = NestedFieldCopy obj read := by
  induction bindings generalizing obj with
  | nil =>
    simp only [applyBindings, Except.ok.injEq] at hrun
    rw [hrun]
  | cons binding rest ih =>
    have hrest : ∀ b ∈ rest, ∀ v, NestedFieldCopy content (Split b.From '.') = .ok (some v) →
        ¬ read <+: Split b.To '.' ∧ ¬ Split b.To '.' <+: read :=
      fun b hb => hfree b (List.mem_cons_of_mem _ hb)
    simp only [applyBindings] at hrun
    cases hread : NestedFieldCopy content (Split binding.From '.') with
    | error e => rw [hread] at hrun; simp at hrun
    | ok found =>
      rw [hread] at hrun
      cases found with
      | none => exact ih obj hrest hrun
      | some val =>
        simp only at hrun
        cases hwrite : SetNestedField obj val (Split binding.To '.') with
        | error e => rw [hwrite] at hrun; simp at hrun
        | ok obj1 =>
          rw [hwrite] at hrun
          rw [ih obj1 hrest hrun]
          have hpre := hfree binding (List.mem_cons_self _ _) val hread
          exact setNestedFieldLoop_read_other _ read val (Split binding.To '.') read obj obj1 0 0
            hwrite hpre.1 hpre.2

/-- When the overlay loop succeeds, the object of every overlay of the list
was built. -/
theorem generateLoop_built (marshal : Unstructured → Except Error String) (cr : ParentResource)
    (overlays : List Overlay) (text final : String)
    (hrun : generateLoop marshal cr text overlays = .ok final) (overlay : Overlay)
    (hmem : overlay ∈ overlays) : ∃ obj, overlayObject cr overlay = .ok obj := by
  obtain ⟨before, after, hsplit⟩ := List.append_of_mem hmem
  cases hobj : overlayObject cr overlay with
  | ok obj => exact ⟨obj, rfl⟩
  | error e =>
    obtain ⟨e1, he1⟩ := generateLoop_error marshal cr before after overlay e hobj text
    rw [hsplit, he1] at hrun
    simp at hrun

theorem eq_empty_of_length (s : String) (h : s.length = 0) : s = "" := by
  apply String.ext
  exact List.length_eq_zero.mp h

/-- The object of a fresh overlay whose name and namespace are not empty. -/
theorem newOverlayObject_named (overlay : Overlay) (hname : overlay.Name ≠ "")
    (hns : overlay.Namespace ≠ "") :
    (newOverlayObject overlay).Object =
      [("apiVersion", .str overlay.APIVersion), ("kind", .str overlay.Kind),
       ("metadata", .map [("name", .str overlay.Name), ("namespace", .str overlay.Namespace)])] := by
  have h1 : ¬ overlay.Name.length = 0 := fun h => hname (eq_empty_of_length _ h)
  have h2 : ¬ overlay.Namespace.length = 0 := fun h => hns (eq_empty_of_length _ h)
  simp [newOverlayObject, Unstructured.SetAPIVersion, Unstructured.SetKind,
    Unstructured.SetName, Unstructured.SetNamespace, Unstructured.setNestedField,
    SetNestedField, setNestedFieldLoop, mapSet, mapGet, h1, h2]

/-- The object of an overlay comes out of the bindings loop started on the
fresh object. -/
theorem overlayObject_ok (cr : ParentResource) (overlay : Overlay) (obj : Unstructured)
    (h : overlayObject cr overlay = .ok obj) :
    applyBindings cr.Content (newOverlayObject overlay).Object overlay.Bindings
      = .ok obj.Object := by
  unfold overlayObject at h
  cases hrun : applyBindings cr.Content (newOverlayObject overlay).Object overlay.Bindings with
  | error e => rw [hrun] at h; simp at h
  | ok built =>
    rw [hrun] at h
    simp only [Except.ok.injEq] at h
    rw [← h]

/-- The value a binding wrote is read back from the object the loop ends with,
when no later binding whose source resolves writes at, above or below its
target path. -/
theorem applyBindings_read_back (content : Object) (earlier later : List FieldBinding)
    (binding : FieldBinding) (obj built : Object) (val : Value)
    (hrun : applyBindings content obj (earlier ++ binding :: later) = .ok built)
    (hfrom : NestedFieldCopy content (Split binding.From '.') = .ok (some val))
    (hfree : ∀ b ∈ later, ∀ v, NestedFieldCopy content (Split b.From '.') = .ok (some v) →
      ¬ Split binding.To '.' <+: Split b.To '.' ∧ ¬ Split b.To '.' <+: Split binding.To '.') :
    NestedFieldCopy built (Split binding.To '.') = .ok (some val) := by
  rw [applyBindings_append] at hrun
  cases hfirst : applyBindings content obj earlier with
  | error e => rw [hfirst] at hrun; simp at hrun
  | ok obj1 =>
    rw [hfirst] at hrun
    simp only [applyBindings, hfrom] at hrun
    cases hwrite : SetNestedField obj1 val (Split binding.To '.') with
    | error e => rw [hwrite] at hrun; simp at hrun
    | ok obj2 =>
      rw [hwrite] at hrun
      rw [applyBindings_read_other content later obj2 built (Split binding.To '.') hfree hrun]
      exact setNestedFieldLoop_read_back _ _ val (Split binding.To '.') obj1 obj2 0 0 hwrite

/-! ## PatchOverlayGenerator: what the serialized object holds -/

/-- C17: for an overlay of the list with non-empty apiVersion, kind, name and
namespace none of whose bindings has a target path starting with `apiVersion`,
`kind` or `metadata`, when `Generate` returns a nil error the object built for
the overlay holds the overlay's apiVersion, kind, name and namespace at
`apiVersion`, `kind`, `metadata.name` and `metadata.namespace`; and for every
binding whose source path resolves to a value, and whose target path neither
is a prefix of nor has as a prefix the target path of a later binding whose
source resolves, the object holds that value at the target path. -/
theorem generate_preserves_identity (marshal : Unstructured → Except Error String)
    (pog : PatchOverlayGenerator) (cr : ParentResource) (k : Kustomization) (overlay : Overlay)
    (hmem : overlay ∈ pog.Overlays)
    (_hapi : overlay.APIVersion ≠ "") (_hkind : overlay.Kind ≠ "")
    (hname : overlay.Name ≠ "") (hns : overlay.Namespace ≠ "")
    (hto : ∀ b ∈ overlay.Bindings, ∀ field ∈ (Split b.To '.').head?,
      field ≠ "apiVersion" ∧ field ≠ "kind" ∧ field ≠ "metadata")
    (hok : (pog.Generate marshal cr k).err = none) :
    ∃ obj, overlayObject cr overlay = .ok obj ∧
      NestedFieldCopy obj.Object ["apiVersion"] = .ok (some (.str overlay.APIVersion)) ∧
      NestedFieldCopy obj.Object ["kind"] = .ok (some (.str overlay.Kind)) ∧
      NestedFieldCopy obj.Object ["metadata", "name"] = .ok (some (.str overlay.Name)) ∧
      NestedFieldCopy obj.Object ["metadata", "namespace"]
        = .ok (some (.str overlay.Namespace)) ∧
      ∀ (earlier later : List FieldBinding) (binding : FieldBinding) (val : Value),
        overlay.Bindings = earlier ++ binding :: later →
        NestedFieldCopy cr.Content (Split binding.From '.') = .ok (some val) →
        (∀ b ∈ later, ∀ v, NestedFieldCopy cr.Content (Split b.From '.') = .ok (some v) →
          ¬ Split binding.To '.' <+: Split b.To '.' ∧
          ¬ Split b.To '.' <+: Split binding.To '.') →
        NestedFieldCopy obj.Object (Split binding.To '.') = .ok (some val) := by
  have hlen : ¬ pog.Overlays.length = 0 := by
    intro h
    rw [List.length_eq_zero.mp h] at hmem
    cases hmem
  unfold PatchOverlayGenerator.Generate at hok
  rw [if_neg hlen] at hok
  cases hloop : generateLoop marshal cr "" pog.Overlays with
  | error e => rw [hloop] at hok; simp at hok
  | ok text =>
    obtain ⟨obj, hobj⟩ := generateLoop_built marshal cr pog.Overlays "" text hloop overlay hmem
    have hrun := overlayObject_ok cr overlay obj hobj
    have hbase := newOverlayObject_named overlay hname hns
    have hget : ∀ key : String, (key = "apiVersion" ∨ key = "kind" ∨ key = "metadata") →
        mapGet obj.Object key = mapGet (newOverlayObject overlay).Object key := by
      intro key hkey
      apply applyBindings_get_other cr.Content overlay.Bindings _ _ key _ hrun
      intro b hb field hfield
      have h3 := hto b hb field hfield
      rcases hkey with h | h | h
      · rw [h]; exact h3.1
      · rw [h]; exact h3.2.1
      · rw [h]; exact h3.2.2
    have hapiGet := hget "apiVersion" (Or.inl rfl)
    have hkindGet := hget "kind" (Or.inr (Or.inl rfl))
    have hmetaGet := hget "metadata" (Or.inr (Or.inr rfl))
    rw [hbase] at hapiGet hkindGet hmetaGet
    simp only [mapGet] at hapiGet hkindGet hmetaGet
    refine ⟨obj, hobj, ?_, ?_, ?_, ?_, ?_⟩
    · simp [NestedFieldCopy, nestedFieldLoop, hapiGet]
    · simp [NestedFieldCopy, nestedFieldLoop, hkindGet]
    · simp [NestedFieldCopy, nestedFieldLoop, hmetaGet, mapGet]
    · simp [NestedFieldCopy, nestedFieldLoop, hmetaGet, mapGet]
    · intro earlier later binding val hb hfrom hfree
      rw [hb] at hrun
      exact applyBindings_read_back cr.Content earlier later binding _ obj.Object val hrun
        hfrom hfree

/-- The object of C17 for the overlay `exOverlayGood`: it holds the kind
`ConfigMap`, the name `cm`, and the value `A` of `spec.a` at `data.x`. -/
theorem generate_preserves_identity_witness :
    ∃ obj, overlayObject exParent exOverlayGood = .ok obj ∧
      NestedFieldCopy obj.Object ["kind"] = .ok (some (.str "ConfigMap")) ∧
      NestedFieldCopy obj.Object ["metadata", "name"] = .ok (some (.str "cm")) ∧
      NestedFieldCopy obj.Object (Split "data.x" '.') = .ok (some (.str "A")) := by
  obtain ⟨obj, hobj, _, hkind, hname, _, hval⟩ :=
    generate_preserves_identity exMarshal ⟨[exOverlayGood, exOverlayAbsent]⟩ exParent exConfig
      exOverlayGood (by decide) (by decide) (by decide) (by decide) (by decide) (by decide)
      (by decide)
  refine ⟨obj, hobj, hkind, hname, ?_⟩
  refine hval [] [{ From := "spec.b", To := "data.y" }] { From := "spec.a", To := "data.x" }
    (.str "A") rfl rfl ?_
  intro b hb v _
  rw [List.mem_singleton] at hb
  subst hb
  decide

/-- A later binding that writes the parent of a target path replaces what was
written there: after `spec.a` to `data.x` and `spec.b` to `data`, the object
holds `B` at `data` and `data.x` cannot be read. The condition of C17 on later
bindings therefore covers both directions. -/
theorem overlayObject_parent_overwrites :
    ∃ obj, overlayObject exParent exOverlayOverwrite = .ok obj ∧
      NestedFieldCopy obj.Object (Split "data" '.') = .ok (some (.str "B")) ∧
      NestedFieldCopy obj.Object (Split "data.x" '.')
        = .error (.accessorError ["data", "x"]) :=
  ⟨_, rfl, rfl, rfl⟩

/-! ## LabelPropagator: which prior values survive -/

/-- C5, amended: for a parent whose own labels use none of the three derived
keys, `LabelPropagator.Patch` gives the same common labels on two
configurations whose common labels agree at every key other than
`<group>/name`, `<group>/uid` and, when the parent has a namespace,
`<group>/namespace`; and for a parent without a namespace the entry at
`<group>/namespace` after the call is the entry before the call. -/
theorem labelPropagator_overwrites_derived (cr : ParentResource)
    (hfree : ∀ kv ∈ cr.Labels,
      kv.1 ≠ cr.GroupVersionKind.Group ++ "/name" ∧
      kv.1 ≠ cr.GroupVersionKind.Group ++ "/uid" ∧
      kv.1 ≠ cr.GroupVersionKind.Group ++ "/namespace") :
    (∀ k1 k2 : Kustomization,
      (∀ key : String,
        key ≠ cr.GroupVersionKind.Group ++ "/name" →
        key ≠ cr.GroupVersionKind.Group ++ "/uid" →
        (key ≠ cr.GroupVersionKind.Group ++ "/namespace" ∨ cr.Namespace = "") →
        k1.label key = k2.label key) →
      (LabelPropagator.Patch cr k1).k.CommonLabels
        = (LabelPropagator.Patch cr k2).k.CommonLabels) ∧
    (cr.Namespace = "" → ∀ k : Kustomization,
      (LabelPropagator.Patch cr k).k.label (cr.GroupVersionKind.Group ++ "/namespace")
        = k.label (cr.GroupVersionKind.Group ++ "/namespace")) := by
  refine ⟨fun k1 k2 hagree => commonLabels_of_agree cr k1 k2 hagree, ?_⟩
  intro hns k
  have hkey : cr.GroupVersionKind.Group ++ "/namespace" ∉ cr.Labels.map Prod.fst := by
    intro hmem
    obtain ⟨kv, hkv, hk⟩ := List.mem_map.mp hmem
    exact (hfree kv hkv).2.2 hk
  rw [labelPropagator_label_of_not_key cr k _ hkey]
  unfold derivedLabel
  rw [if_neg (uid_ne_namespace _).symm, if_neg (name_ne_namespace _).symm,
    if_neg (fun h => h.2 hns)]

/-- The amended C5 on concrete parents: with the namespace `ns` two
configurations that differ under `g/namespace` get the same common labels, and
without a namespace the prior value `a` under `g/namespace` is kept. -/
theorem labelPropagator_overwrites_derived_witness :
    (LabelPropagator.Patch exParent (exConfigWith "a")).k.CommonLabels
      = (LabelPropagator.Patch exParent (exConfigWith "b")).k.CommonLabels ∧
    (LabelPropagator.Patch exParentNoNamespace (exConfigWith "a")).k.label "g/namespace"
      = some "a" :=
  ⟨(labelPropagator_overwrites_derived exParent (by decide)).1 (exConfigWith "a")
      (exConfigWith "b")
      (by
        intro key _ _ h3
        have h : key ≠ "g/namespace" := by
          rcases h3 with h | h
          · exact h
          · exact absurd h (by decide)
        simp [exConfigWith, Kustomization.label, StringMap.set, StringMap.empty, h]),
    (labelPropagator_overwrites_derived exParentNoNamespace (by decide)).2 rfl
      (exConfigWith "a")⟩

/-! ## PatchOverlayGenerator: a binding without a source -/

theorem length_eq_zero_iff (s : String) : s.length = 0 ↔ s = "" :=
  ⟨eq_empty_of_length s, fun h => by rw [h]; rfl⟩

/-- The fresh object of an overlay has a value at a path exactly when the path
is one of the fields the setters fill. -/
theorem newOverlayObject_value_iff (overlay : Overlay) (fields : List String)
    (hne : fields ≠ []) :
    (∃ v, NestedFieldCopy (newOverlayObject overlay).Object fields = .ok (some v))
      ↔ overlaySetsField overlay fields := by
  cases fields with
  | nil => exact absurd rfl hne
  | cons f rest =>
    unfold overlaySetsField
    have hn2 := length_eq_zero_iff overlay.Name
    have hs2 := length_eq_zero_iff overlay.Namespace
    by_cases hn : overlay.Name.length = 0 <;> by_cases hs : overlay.Namespace.length = 0 <;>
      simp only [newOverlayObject, Unstructured.SetAPIVersion, Unstructured.SetKind,
        Unstructured.SetName, Unstructured.SetNamespace, Unstructured.setNestedField,
        SetNestedField, setNestedFieldLoop, RemoveNestedField, mapSet, mapGet, mapDelete,
        hn, hs, NestedFieldCopy, nestedFieldLoop] <;>
      rw [hn2] at hn <;> rw [hs2] at hs <;>
      (by_cases h1 : "apiVersion" = f
       · subst h1
         cases rest <;> simp [nestedFieldLoop, hn, hs]
       · by_cases h2 : "kind" = f
         · subst h2
           cases rest <;> simp [nestedFieldLoop, hn, hs]
         · by_cases h3 : "metadata" = f
           · subst h3
             rcases rest with _ | ⟨g, rest2⟩
             · simp [nestedFieldLoop, mapGet, hn, hs]
             · by_cases g1 : "name" = g
               · subst g1
                 cases rest2 <;> simp [nestedFieldLoop, mapGet, hn, hs]
               · by_cases g2 : "namespace" = g
                 · subst g2
                   cases rest2 <;> simp [nestedFieldLoop, mapGet, hn, hs]
                 · have g1s : ¬ g = "name" := fun e => g1 e.symm
                   have g2s : ¬ g = "namespace" := fun e => g2 e.symm
                   simp [nestedFieldLoop, mapGet, hn, hs, g1, g2, g1s, g2s]
           · have h1s : ¬ f = "apiVersion" := fun e => h1 e.symm
             have h2s : ¬ f = "kind" := fun e => h2 e.symm
             have h3s : ¬ f = "metadata" := fun e => h3 e.symm
             simp [nestedFieldLoop, mapGet, hn, hs, h1, h2, h3, h1s, h2s, h3s])

/-- C9, amended: for an overlay with a single binding whose source path has a
missing key in the parent's content, the object built for the overlay is
exactly the one holding the overlay's apiVersion, kind, name and namespace, and
`Generate` returns, wherever the overlay stands in the list, what it returns
for the overlay without the binding; on that overlay alone it returns a nil
error and the one file with its document when marshalling the object
succeeds, and the marshaller's error otherwise; and the object has a value at
the target path exactly when that path is one of the fields the overlay sets
itself (`apiVersion`, `kind`, `metadata`, `metadata.name`,
`metadata.namespace`, the last three as far as name and namespace are not
empty), so at every other target path it has none. -/
theorem generate_skips_absent_source (marshal : Unstructured → Except Error String)
    (cr : ParentResource) (k : Kustomization) (overlay : Overlay) (binding : FieldBinding)
    (hb : overlay.Bindings = [binding])
    (hmiss : missingKey cr.Content (Split binding.From '.') = true) :
    overlayObject cr overlay = .ok (newOverlayObject overlay) ∧
    (∀ before after : List Overlay,
      PatchOverlayGenerator.Generate marshal { Overlays := before ++ overlay :: after } cr k
        = PatchOverlayGenerator.Generate marshal
            { Overlays := before ++ { overlay with Bindings := [] } :: after } cr k) ∧
    (∀ doc : String, marshal (newOverlayObject overlay) = .ok doc →
      (PatchOverlayGenerator.Generate marshal { Overlays := [overlay] } cr k).err = none ∧
      (PatchOverlayGenerator.Generate marshal { Overlays := [overlay] } cr k).files
        = some [{ Name := "overlaypatch.yaml", Data := "---\n" ++ doc }]) ∧
    (∀ e : Error, marshal (newOverlayObject overlay) = .error e →
      (PatchOverlayGenerator.Generate marshal { Overlays := [overlay] } cr k).err = some e) ∧
    ((∃ v, NestedFieldCopy (newOverlayObject overlay).Object (Split binding.To '.')
        = .ok (some v))
      ↔ overlaySetsField overlay (Split binding.To '.')) := by
  have hobj : overlayObject cr overlay = .ok (newOverlayObject overlay) := by
    simp [overlayObject, hb, applyBindings, nestedFieldCopy_missingKey _ _ hmiss]
  have hsame : overlayObject cr overlay = overlayObject cr { overlay with Bindings := [] } := by
    rw [hobj]
    rfl
  refine ⟨hobj, ?_, ?_, ?_, newOverlayObject_value_iff overlay _ (Split_ne_nil _ _)⟩
  · intro before after
    have hlen1 : ¬ (before ++ overlay :: after).length = 0 := by simp
    have hlen2 : ¬ (before ++ { overlay with Bindings := [] } :: after).length = 0 := by simp
    unfold PatchOverlayGenerator.Generate
    simp only [if_neg hlen1, if_neg hlen2]
    rw [generateLoop_congr marshal cr before after overlay _ hsame ""]
  · intro doc hdoc
    constructor
    · simp [PatchOverlayGenerator.Generate, generateLoop, hobj, hdoc]
    · simp [PatchOverlayGenerator.Generate, generateLoop, hobj, hdoc, fileName]
  · intro e he
    simp [PatchOverlayGenerator.Generate, generateLoop, hobj, he]

/-- The amended C9 for the overlay `exOverlayAbsent`, whose binding reads
`spec.missing` and writes `data.x`: the object is the fresh one, `Generate`
returns a nil error, and the object has no value at `data.x`. -/
theorem generate_skips_absent_source_witness :
    overlayObject exParent exOverlayAbsent = .ok (newOverlayObject exOverlayAbsent) ∧
    (PatchOverlayGenerator.Generate exMarshal ⟨[exOverlayAbsent]⟩ exParent exConfig).err
      = none ∧
    ¬ ∃ v, NestedFieldCopy (newOverlayObject exOverlayAbsent).Object (Split "data.x" '.')
      = .ok (some v) := by
  have h := generate_skips_absent_source exMarshal exParent exConfig exOverlayAbsent
    { From := "spec.missing", To := "data.x" } rfl (by decide)
  refine ⟨h.1, (h.2.2.1 "Secret\n" rfl).1, ?_⟩
  intro hv
  have hset := h.2.2.2.2.mp hv
  revert hset
  unfold overlaySetsField
  decide

end Kustomize
